import Mathlib

/-!
Verification of the entity synchronization engine of the `tch` repository
(the `DB` class: `saveMany`, `saveOne`, `deleteAllEntities`, `close`).

The embedding models:
  * entity records as association lists from column names to values,
  * the durable store as a map from table names to tables (maps from
    entity id to record),
  * the sync engine `DB.saveMany` as a pure state-passing function that
    also returns the emitted commit events, the "unknown table" skip log
    entries, the per-table save log entries, and an optional propagated
    persistence error,
  * the delete coordinator `DB.deleteAllEntities` and `DB.close`.

The orchestration logic (per-table loop, unknown-table skip, fetch by ids,
compare / merge / create, queue, persist, commit dispatch, counters) is
translated from the source of `DB.saveMany` / `DB.deleteAllEntities` /
`DB.saveOne` / `DB.close`.  The helpers that live outside the provided
sources (the record comparator `compare-records`, `get-columns`, and the
typeorm repository operations `merge`, `create`, `persist`, `remove`,
`close`) are modelled from the specification's Entity Store and Record
Comparator contracts; each such definition carries a doc comment saying so.
-/

/-- A field value of an entity record.  The source stores untyped JS
values; we model the value universe abstractly with enough constructors
for strings, integers, booleans and null. -/
inductive Value : Type where
  | vstr : String → Value
  | vint : Int → Value
  | vbool : Bool → Value
  | vnull : Value
deriving DecidableEq

/-- An entity record (one row): an association list from column name to
value.  A *partial* record simply omits some columns. -/
abbrev Record := List (String × Value)

/-- First-match association-list lookup (JS object property access). -/
def assocGet {α : Type} : List (String × α) → String → Option α
  | [], _ => none
  | p :: rest, k => if p.1 = k then some p.2 else assocGet rest k

/-- Association-list update: replaces the first binding of the key, or
appends a new binding if the key is absent (JS object property write;
for tables, an UPSERT keyed by the primary key). -/
def assocSet {α : Type} : List (String × α) → String → α → List (String × α)
  | [], k, v => [(k, v)]
  | p :: rest, k, v => if p.1 = k then (k, v) :: rest else p :: assocSet rest k v

/-- Reads a field of a record. -/
def Record.get (r : Record) (k : String) : Option Value := assocGet r k

/-- Sets a field of a record. -/
def Record.set (r : Record) (k : String) (v : Value) : Record := assocSet r k v

/-- A column descriptor: name, whether the column is excluded from
change comparison, and the schema default used when a created record
leaves the column unset.  Modelled from the spec: the column metadata
itself comes from `get-columns` / the model classes, which are outside
the provided sources. -/
structure Column : Type where
  name : String
  ignored : Bool
  defaultValue : Value
deriving DecidableEq

/-- A registered model (schema) for one table: its ordered column set.
Modelled from the spec: the model classes of `model-map` are outside the
provided sources. -/
structure Model : Type where
  columns : List Column
deriving DecidableEq

/-- Modelled from the spec: `get-columns` (outside the provided sources)
returns the column set of a model. -/
def getColumns (m : Model) : List Column := m.columns

/-- Modelled from the spec (Record Comparator contract): compares only
the fields present in the incoming partial record against the existing
record, restricted to the table's columns, skipping columns flagged as
ignored; true iff every compared field is equal.  The source file
`compare-records` is outside the provided sources. -/
def compareRecords (existing incoming : Record) (columns : List Column) : Bool :=
  incoming.all (fun f =>
    match columns.find? (fun c => decide (c.name = f.1)) with
    | some c => c.ignored || decide (Record.get existing f.1 = some f.2)
    | none => true)

/-- Modelled from the spec: `repo.create(entity)` materializes a fresh
row from a partial record, with unset columns taking the schema's
default (typeorm is outside the provided sources; column defaults are
applied by the insert). -/
def createRecord (columns : List Column) (entity : Record) : Record :=
  columns.map (fun c => (c.name, (Record.get entity c.name).getD c.defaultValue))

/-- Modelled from the spec: the net effect on the stored row of
`repo.merge(entity)` followed by `repo.persist` (typeorm, outside the
provided sources): the incoming partial record's fields overwrite a copy
of the stored record, fields absent from the incoming record keep their
stored value, and the row keeps exactly the schema's columns. -/
def mergeRecord (columns : List Column) (existing incoming : Record) : Record :=
  columns.map (fun c =>
    (c.name, (Record.get incoming c.name).getD ((Record.get existing c.name).getD c.defaultValue)))

/-- The `id` property of a row, as the string primary key
(`_.pluck(rows, "id")` reads this field). -/
def recordId (r : Record) : String :=
  match Record.get r "id" with
  | some (Value.vstr s) => s
  | _ => ""

/-- A stored table: association list from entity id to record. -/
abbrev Table := List (String × Record)

/-- The rows of the table whose id is among the given ids
(the `e.id in (:entityIds)` query of `saveMany`). -/
def fetchByIds (t : Table) (ids : List String) : List Record :=
  (t.filter (fun p => decide (p.1 ∈ ids))).map (fun p => p.2)

/-- Lookup in `_.indexBy(savedRows, "id")`: a JS object keyed by each
row's `id` field; on duplicate ids the last row wins (later object
writes overwrite earlier ones). -/
def indexByIdGet (rows : List Record) (i : String) : Option Record :=
  match rows with
  | [] => none
  | r :: rest =>
    match indexByIdGet rest i with
    | some x => some x
    | none => if recordId r = i then some r else none

/-- One table's portion of a synchronization batch: entity id → partial
record (`IEntityMap`). -/
abbrev EntityMap := List (String × Record)

/-- A synchronization batch: table name → entity map (`ITableMap`).
JS object keys are unique, so a well-formed batch has distinct table
names. -/
abbrev TableMap := List (String × EntityMap)

/-- The commit event dispatched after a successful persist
(`actions.dbCommit({tableName, updated})`). -/
structure CommitEvent : Type where
  tableName : String
  updated : List String
deriving DecidableEq

/-- The state of the `DB` object: the static model registry, the stored
tables, and the connection bookkeeping touched by `close`. -/
structure DBState : Type where
  modelMap : List (String × Model)
  tables : List (String × Table)
  dbPath : Option String
  connOpen : Bool
deriving DecidableEq

/-- `modelMap[tableName]`. -/
def lookupModel (modelMap : List (String × Model)) (tableName : String) : Option Model :=
  assocGet modelMap tableName

/-- The stored table of a given name; a registered table with no rows yet
is the empty table. -/
def lookupTable (tables : List (String × Table)) (tableName : String) : Table :=
  (assocGet tables tableName).getD []

/-- Replaces (or creates) one stored table. -/
def setTable (tables : List (String × Table)) (tableName : String) (t : Table) :
    List (String × Table) :=
  assocSet tables tableName t

/-- The loop body of `saveMany` that builds the queue of rows to persist
and the up-to-date tally.  For each incoming id: if an existing row was
fetched and the comparator says it is up to date, it is skipped and
counted; if it exists but differs, the merged row is queued; if it does
not exist, a fresh row is created with its `id` set to the incoming id
and queued. -/
def buildRows (columns : List Column) (savedRows : List Record) :
    EntityMap → List Record × Nat
  | [] => ([], 0)
  | (id, entity) :: rest =>
    let r := buildRows columns savedRows rest
    match indexByIdGet savedRows id with
    | some existingEntity =>
      if compareRecords existingEntity entity columns then (r.1, r.2 + 1)
      else (mergeRecord columns existingEntity entity :: r.1, r.2)
    | none => (Record.set (createRecord columns entity) "id" (Value.vstr id) :: r.1, r.2)

/-- Modelled from the spec: `repo.persist(rows)` upserts every queued row
into the table, keyed by the row's `id` field (typeorm is outside the
provided sources; the spec's `upsertMany` inserts new rows and replaces
existing rows by id). -/
def persistRows (t : Table) (rows : List Record) : Table :=
  rows.foldl (fun acc r => assocSet acc (recordId r) r) t

/-- The observable outcome of a `saveMany` call: the new `DB` state, the
dispatched commit events, the "unknown table" skip log entries
(table name, number of skipped records), the per-table save log entries
(table name, rows persisted, rows skipped as up to date), and the
propagated error of a failed persist, if any. -/
structure SaveResult : Type where
  db : DBState
  events : List CommitEvent
  skipped : List (String × Nat)
  logs : List (String × Nat × Nat)
  err : Option String
deriving DecidableEq

namespace DB

/-- `DB.saveMany`, translated from the source, with an explicit fault
oracle `fail` telling which tables' `repo.persist` call fails (the
source `await repo.persist(rows)` can reject; a rejection propagates as
an exception, aborting the remaining iterations of the loop).  Per
table: unknown tables are skipped and logged; otherwise the existing
rows for the incoming ids are fetched, the queue is built, a non-empty
queue is persisted and a commit event is dispatched, and the per-table
counters are logged. -/
def saveManyWith (fail : String → Bool) (db : DBState) :
    TableMap → SaveResult
  | [] => { db := db, events := [], skipped := [], logs := [], err := none }
  | (tableName, entities) :: rest =>
    match lookupModel db.modelMap tableName with
    | none =>
      let r := saveManyWith fail db rest
      { r with skipped := (tableName, entities.length) :: r.skipped }
    | some M =>
      let columns := getColumns M
      let tbl := lookupTable db.tables tableName
      let savedRows := fetchByIds tbl (entities.map Prod.fst)
      let b := buildRows columns savedRows entities
      if b.1.isEmpty then
        let r := saveManyWith fail db rest
        { r with logs := (tableName, b.1.length, b.2) :: r.logs }
      else if fail tableName then
        { db := db, events := [], skipped := [], logs := [], err := some tableName }
      else
        let db2 := { db with tables := setTable db.tables tableName (persistRows tbl b.1) }
        let r := saveManyWith fail db2 rest
        { r with
            events := { tableName := tableName, updated := b.1.map recordId } :: r.events,
            logs := (tableName, b.1.length, b.2) :: r.logs }

/-- `DB.saveMany` in the absence of store faults. -/
def saveMany (db : DBState) (entityTables : TableMap) : SaveResult :=
  saveManyWith (fun _ => false) db entityTables

/-- `DB.saveOne`, translated from the source: delegates to `saveMany`
with the singleton batch. -/
def saveOne (db : DBState) (tableName : String) (id : String) (record : Record) :
    SaveResult :=
  saveMany db [(tableName, [(id, record)])]

/-- Modelled from the spec: `repo.remove(toRemove)` (typeorm, outside the
provided sources) deletes the rows with the given ids; deleting a
nonexistent id is a no-op, not an error. -/
def removeRows (t : Table) (ids : List String) : Table :=
  t.filter (fun p => !(decide (p.1 ∈ ids)))

/-- A deletion spec (`IDBDeleteSpec`): table name → ids to remove. -/
structure IDBDeleteSpec : Type where
  entities : List (String × List String)
deriving DecidableEq

/-- The per-table loop of `deleteAllEntities`: unknown tables are skipped
and logged (table name, number of ids), otherwise the listed ids are
removed from the stored table. -/
def deleteTables (db : DBState) : List (String × List String) → DBState × List (String × Nat)
  | [] => (db, [])
  | (tableName, entities) :: rest =>
    match lookupModel db.modelMap tableName with
    | none =>
      let r := deleteTables db rest
      (r.1, (tableName, entities.length) :: r.2)
    | some _ =>
      let tbl := lookupTable db.tables tableName
      let db2 := { db with tables := setTable db.tables tableName (removeRows tbl entities) }
      deleteTables db2 rest

/-- `DB.deleteAllEntities`, translated from the source. -/
def deleteAllEntities (db : DBState) (deleteSpec : IDBDeleteSpec) :
    DBState × List (String × Nat) :=
  deleteTables db deleteSpec.entities

/-- `DB.close`, translated from the source: closes the connection and
clears `dbPath`.  Modelled from the spec: `conn.close()` (typeorm,
outside the provided sources) releases resources and is idempotent. -/
def close (db : DBState) : DBState :=
  { db with connOpen := false, dbPath := none }

end DB

/- Well-formedness predicates.  They assert only what the surrounding
code guarantees by construction: JS object keys are unique; the batch
maps each id to the partial record *for that id* (so an explicit `id`
field, if present, agrees with the key); stored rows carry their own key
in their `id` column; a schema names its columns uniquely and has an
`id` column. -/

/-- A well-formed column set: distinct column names, among them `id`. -/
abbrev wfColumns (columns : List Column) : Prop :=
  (columns.map Column.name).Nodup ∧ "id" ∈ columns.map Column.name

/-- A well-formed model. -/
abbrev wfModel (m : Model) : Prop := wfColumns (getColumns m)

/-- A well-formed partial record for entity id `i`: unique field names,
and an explicit `id` field, if any, equal to `i`. -/
abbrev wfRecordFor (i : String) (e : Record) : Prop :=
  (e.map Prod.fst).Nodup ∧
    (Record.get e "id" = none ∨ Record.get e "id" = some (Value.vstr i))

/-- A well-formed entity map: unique ids, each mapped to a well-formed
partial record for that id. -/
abbrev wfEntities (ents : EntityMap) : Prop :=
  (ents.map Prod.fst).Nodup ∧ ∀ p ∈ ents, wfRecordFor p.1 p.2

/-- A well-formed stored table: unique ids, every row carrying its key in
its `id` column. -/
abbrev wfTable (t : Table) : Prop :=
  (t.map Prod.fst).Nodup ∧ ∀ p ∈ t, Record.get p.2 "id" = some (Value.vstr p.1)

/-- A well-formed `DB` state: every registered model and every stored
table is well-formed. -/
abbrev wfDB (db : DBState) : Prop :=
  (∀ p ∈ db.modelMap, wfModel p.2) ∧ ∀ p ∈ db.tables, wfTable p.2

/-- A well-formed synchronization batch: unique table names (JS object
keys), each mapped to a well-formed entity map. -/
abbrev wfBatch (batch : TableMap) : Prop :=
  (batch.map Prod.fst).Nodup ∧ ∀ p ∈ batch, wfEntities p.2

/-- The decision taken by the `saveMany` loop for one incoming id, as a
function of the stored table: `none` when the record is up to date
(nothing queued), otherwise the queued row. -/
def rowFor (columns : List Column) (tbl : Table) (i : String) (e : Record) : Option Record :=
  match assocGet tbl i with
  | some ex => if compareRecords ex e columns then none else some (mergeRecord columns ex e)
  | none => some (Record.set (createRecord columns e) "id" (Value.vstr i))

/-- The stored table after `saveMany` has processed one table's portion
of a batch. -/
def tableAfter (columns : List Column) (tbl : Table) (ents : EntityMap) : Table :=
  persistRows tbl (ents.filterMap (fun p => rowFor columns tbl p.1 p.2))

/- Concrete sample data used to exercise the theorems on closed inputs. -/

/-- The primary-key column shared by the sample schemas. -/
def idCol : Column := { name := "id", ignored := false, defaultValue := Value.vnull }

/-- Sample schema of the `games` table. -/
def gamesModel : Model :=
  { columns := [idCol, { name := "title", ignored := false, defaultValue := Value.vnull }] }

/-- Sample schema of the `users` table. -/
def usersModel : Model :=
  { columns := [idCol, { name := "name", ignored := false, defaultValue := Value.vnull }] }

/-- Sample schema of the `pairs` table (columns `id`, `a`, `b`). -/
def pairsModel : Model :=
  { columns := [idCol,
    { name := "a", ignored := false, defaultValue := Value.vnull },
    { name := "b", ignored := false, defaultValue := Value.vnull }] }

/-- A stored `pairs` row: `{id:"1", a:"x", b:"y"}`. -/
def pairRow : Record :=
  [("id", Value.vstr "1"), ("a", Value.vstr "x"), ("b", Value.vstr "y")]

/-- A sample `DB` state: three registered tables; `users` holds id `"5"`,
`pairs` holds `pairRow`, `games` holds two rows with ids `"4"`, `"5"`. -/
def sampleDB : DBState :=
  { modelMap := [("games", gamesModel), ("users", usersModel), ("pairs", pairsModel)],
    tables :=
      [("users", [("5", [("id", Value.vstr "5"), ("name", Value.vstr "eve")])]),
       ("pairs", [("1", pairRow)]),
       ("games",
        [("4", [("id", Value.vstr "4"), ("title", Value.vstr "t4")]),
         ("5", [("id", Value.vstr "5"), ("title", Value.vstr "t5")])])],
    dbPath := some "/tmp/db",
    connOpen := true }

/-- A `games` entity map with three new records (ids 1-3) and two records
identical to storage (ids 4, 5). -/
def gamesEnts : EntityMap :=
  [("1", [("title", Value.vstr "t1")]),
   ("2", [("title", Value.vstr "t2")]),
   ("3", [("title", Value.vstr "t3")]),
   ("4", [("title", Value.vstr "t4")]),
   ("5", [("title", Value.vstr "t5")])]

/-- A sample batch touching `games`, merging into `pairs`, and naming an
unregistered table `ghosts`. -/
def sampleBatch : TableMap :=
  [("games", gamesEnts),
   ("pairs", [("1", [("id", Value.vstr "1"), ("a", Value.vstr "z")])]),
   ("ghosts", [("9", [("x", Value.vint 0)])])]

/-- A two-table state used to exhibit the behaviour of a persist failure:
tables `ga` and `gb`, both registered, both empty. -/
def twoTableDB : DBState :=
  { modelMap := [("ga", gamesModel), ("gb", gamesModel)],
    tables := [],
    dbPath := some "/tmp/db2",
    connOpen := true }

/-- A batch writing one new record to each of `ga` and `gb`. -/
def twoTableBatch : TableMap :=
  [("ga", [("1", [("title", Value.vstr "A")])]),
   ("gb", [("7", [("title", Value.vstr "B")])])]

/-- The incoming partial `pairs` record `{id:"1", a:"z"}` of the spec's
merge example. -/
def pairInc : Record := [("id", Value.vstr "1"), ("a", Value.vstr "z")]

/- Association-list lemmas. -/

theorem assocGet_set_self {α : Type} (l : List (String × α)) (k : String) (v : α) :
    assocGet (assocSet l k v) k = some v := by
  induction l with
  | nil => simp [assocSet, assocGet]
  | cons p rest ih =>
    obtain ⟨a, b⟩ := p
    by_cases h : a = k
    · simp [assocSet, h, assocGet]
    · simp [assocSet, h, assocGet, ih]

theorem assocGet_set_ne {α : Type} (l : List (String × α)) (k k' : String) (v : α)
    (hne : k' ≠ k) : assocGet (assocSet l k v) k' = assocGet l k' := by
  have hkk : ¬ k = k' := fun h => hne h.symm
  induction l with
  | nil => simp [assocSet, assocGet, hkk]
  | cons p rest ih =>
    obtain ⟨a, b⟩ := p
    by_cases h : a = k
    · subst h
      simp only [assocSet, if_pos rfl, assocGet]
      rw [if_neg hkk, if_neg hkk]
    · by_cases h2 : a = k'
      · simp [assocSet, h, assocGet, h2, hne]
      · simp [assocSet, h, assocGet, h2, ih]

theorem mem_assocSet {α : Type} {l : List (String × α)} {k : String} {v : α} {p : String × α}
    (hp : p ∈ assocSet l k v) : p = (k, v) ∨ p ∈ l := by
  induction l with
  | nil => simpa [assocSet] using hp
  | cons q rest ih =>
    obtain ⟨a, b⟩ := q
    by_cases h : a = k
    · simp [assocSet, h] at hp
      rcases hp with hp | hp
      · exact Or.inl hp
      · exact Or.inr (List.mem_cons_of_mem _ hp)
    · simp only [assocSet, if_neg h] at hp
      rcases List.mem_cons.mp hp with hp | hp
      · exact Or.inr (by simp [hp])
      · rcases ih hp with h1 | h1
        · exact Or.inl h1
        · exact Or.inr (List.mem_cons_of_mem _ h1)

theorem map_fst_assocSet {α : Type} (l : List (String × α)) (k : String) (v : α) :
    (assocSet l k v).map Prod.fst =
      if k ∈ l.map Prod.fst then l.map Prod.fst else l.map Prod.fst ++ [k] := by
  induction l with
  | nil => simp [assocSet]
  | cons p rest ih =>
    obtain ⟨a, b⟩ := p
    by_cases h : a = k
    · simp [assocSet, h, List.mem_cons]
    · have hne : ¬ k = a := fun hk => h hk.symm
      by_cases hk : k ∈ rest.map Prod.fst
      · have hmem : k ∈ (a, b).fst :: rest.map Prod.fst := List.mem_cons_of_mem _ hk
        simp only [assocSet, if_neg h, List.map_cons] at *
        rw [if_pos hmem, ih, if_pos hk]
      · have hmem : k ∉ a :: rest.map Prod.fst := by
          intro hc
          rcases List.mem_cons.mp hc with hc | hc
          · exact hne hc
          · exact hk hc
        simp only [assocSet, if_neg h, List.map_cons] at *
        rw [if_neg hmem, ih, if_neg hk]
        simp

theorem nodup_assocSet {α : Type} {l : List (String × α)} (k : String) (v : α)
    (hl : (l.map Prod.fst).Nodup) : ((assocSet l k v).map Prod.fst).Nodup := by
  rw [map_fst_assocSet]
  split
  · exact hl
  · next h => simp [List.nodup_append, hl, h]

theorem assocGet_mem {α : Type} {l : List (String × α)} {k : String} {v : α}
    (h : assocGet l k = some v) : (k, v) ∈ l := by
  induction l with
  | nil => simp [assocGet] at h
  | cons p rest ih =>
    obtain ⟨a, b⟩ := p
    by_cases hp : a = k
    · subst hp
      simp [assocGet] at h
      subst h
      exact List.mem_cons_self _ _
    · simp only [assocGet, if_neg hp] at h
      exact List.mem_cons_of_mem _ (ih h)

theorem assocGet_of_mem {α : Type} {l : List (String × α)} {k : String} {v : α}
    (hl : (l.map Prod.fst).Nodup) (h : (k, v) ∈ l) : assocGet l k = some v := by
  induction l with
  | nil => simp at h
  | cons p rest ih =>
    obtain ⟨a, b⟩ := p
    rw [List.map_cons, List.nodup_cons] at hl
    rcases List.mem_cons.mp h with h1 | h1
    · cases h1
      simp [assocGet]
    · have hk : k ∈ rest.map Prod.fst := List.mem_map_of_mem Prod.fst h1
      have hp : ¬ (a, b).1 = k := by
        intro hpk
        simp only at hpk
        subst hpk
        exact hl.1 hk
      simp only [assocGet, if_neg hp]
      exact ih hl.2 h1

theorem assocGet_eq_none_iff {α : Type} (l : List (String × α)) (k : String) :
    assocGet l k = none ↔ k ∉ l.map Prod.fst := by
  induction l with
  | nil => simp [assocGet]
  | cons p rest ih =>
    obtain ⟨a, b⟩ := p
    by_cases hp : a = k
    · simp [assocGet, hp]
    · have hne : ¬ k = a := fun hc => hp hc.symm
      simp [assocGet, hp, ih, hne]

/- Record lemmas. -/

theorem get_map_columns (f : Column → Value) (columns : List Column) (k : String) :
    Record.get (columns.map (fun c => (c.name, f c))) k =
      (columns.find? (fun c => decide (c.name = k))).map f := by
  induction columns with
  | nil => simp [Record.get, assocGet]
  | cons c rest ih =>
    by_cases h : c.name = k
    · rw [List.find?_cons_of_pos _ (by simpa using h)]
      simp [Record.get, assocGet, h]
    · rw [List.map_cons, List.find?_cons_of_neg _ (by simpa using h)]
      rw [← ih]
      simp [Record.get, assocGet, h]

theorem find?_col_self {columns : List Column} {c : Column}
    (hnd : (columns.map Column.name).Nodup) (hc : c ∈ columns) :
    columns.find? (fun c' => decide (c'.name = c.name)) = some c := by
  induction columns with
  | nil => simp at hc
  | cons c0 rest ih =>
    rw [List.map_cons, List.nodup_cons] at hnd
    rcases List.mem_cons.mp hc with h1 | h1
    · subst h1
      exact List.find?_cons_of_pos _ (by simp)
    · by_cases h : c0.name = c.name
      · exfalso
        exact hnd.1 (h ▸ List.mem_map_of_mem Column.name h1)
      · rw [List.find?_cons_of_neg _ (by simpa using h)]
        exact ih hnd.2 h1

theorem recordId_of_get {r : Record} {s : String}
    (h : Record.get r "id" = some (Value.vstr s)) : recordId r = s := by
  simp [recordId, h]

/- Fetch / index lemmas: under a well-formed table, the composite lookup
through the fetched-and-indexed rows agrees with direct table lookup. -/

theorem fetchByIds_cons_mem {a : String} {r : Record} {rest : Table} {ids : List String}
    (h : a ∈ ids) : fetchByIds ((a, r) :: rest) ids = r :: fetchByIds rest ids := by
  simp [fetchByIds, List.filter_cons, h]

theorem fetchByIds_cons_notmem {a : String} {r : Record} {rest : Table} {ids : List String}
    (h : a ∉ ids) : fetchByIds ((a, r) :: rest) ids = fetchByIds rest ids := by
  simp [fetchByIds, List.filter_cons, h]

theorem indexByIdGet_fetch_none {t : Table} {ids : List String} {i : String}
    (hwf : ∀ p ∈ t, Record.get p.2 "id" = some (Value.vstr p.1))
    (hni : i ∉ t.map Prod.fst) :
    indexByIdGet (fetchByIds t ids) i = none := by
  induction t with
  | nil => simp [fetchByIds, indexByIdGet]
  | cons p rest ih =>
    obtain ⟨a, r⟩ := p
    have hwa : Record.get r "id" = some (Value.vstr a) := hwf _ (List.mem_cons_self _ _)
    have hrest : ∀ p ∈ rest, Record.get p.2 "id" = some (Value.vstr p.1) :=
      fun p hp => hwf p (List.mem_cons_of_mem _ hp)
    simp only [List.map_cons, List.mem_cons] at hni
    push_neg at hni
    have hra : recordId r = a := recordId_of_get hwa
    by_cases hin : a ∈ ids
    · rw [fetchByIds_cons_mem hin]
      simp only [indexByIdGet]
      rw [ih hrest hni.2, hra]
      rw [if_neg (fun h => hni.1 h.symm)]
    · rw [fetchByIds_cons_notmem hin]
      exact ih hrest hni.2

theorem indexByIdGet_fetch {t : Table} {ids : List String} {i : String}
    (hwf : wfTable t) (hi : i ∈ ids) :
    indexByIdGet (fetchByIds t ids) i = assocGet t i := by
  obtain ⟨hnd, hids⟩ := hwf
  induction t with
  | nil => simp [fetchByIds, indexByIdGet, assocGet]
  | cons p rest ih =>
    obtain ⟨a, r⟩ := p
    rw [List.map_cons, List.nodup_cons] at hnd
    have hwa : Record.get r "id" = some (Value.vstr a) := hids _ (List.mem_cons_self _ _)
    have hrest : ∀ p ∈ rest, Record.get p.2 "id" = some (Value.vstr p.1) :=
      fun p hp => hids p (List.mem_cons_of_mem _ hp)
    have hra : recordId r = a := recordId_of_get hwa
    by_cases hia : a = i
    · subst hia
      rw [fetchByIds_cons_mem hi]
      simp only [indexByIdGet]
      rw [indexByIdGet_fetch_none hrest hnd.1, hra]
      simp [assocGet]
    · by_cases hin : a ∈ ids
      · rw [fetchByIds_cons_mem hin]
        simp only [indexByIdGet]
        rw [ih hnd.2 hrest]
        cases hx : assocGet rest i with
        | some x => simp [hx, assocGet, hia]
        | none => simp [hx, assocGet, hia, hra]
      · rw [fetchByIds_cons_notmem hin, ih hnd.2 hrest]
        simp [assocGet, hia]

/- The queue built by the `saveMany` loop, characterized through
`rowFor`. -/

theorem buildRows_eq (columns : List Column) {tbl : Table} {ids : List String}
    (hwf : wfTable tbl) :
    ∀ ents : EntityMap, (∀ p ∈ ents, p.1 ∈ ids) →
    buildRows columns (fetchByIds tbl ids) ents =
      (ents.filterMap (fun p => rowFor columns tbl p.1 p.2),
       (ents.filter (fun p => (rowFor columns tbl p.1 p.2).isNone)).length) := by
  intro ents
  induction ents with
  | nil => simp [buildRows]
  | cons p rest ih =>
    intro hmem
    obtain ⟨i, e⟩ := p
    have hi : i ∈ ids := hmem _ (List.mem_cons_self _ _)
    have hrest := ih (fun q hq => hmem q (List.mem_cons_of_mem _ hq))
    simp only [buildRows, hrest, indexByIdGet_fetch hwf hi]
    cases hx : assocGet tbl i with
    | some ex =>
      by_cases hc : compareRecords ex e columns
      · simp [rowFor, hx, hc, List.filterMap_cons, List.filter_cons]
      · simp [rowFor, hx, hc, List.filterMap_cons, List.filter_cons]
    | none => simp [rowFor, hx, List.filterMap_cons, List.filter_cons]

/- Properties of the queued rows. -/

theorem rowFor_get_id {columns : List Column} {tbl : Table} {i : String} {e r : Record}
    (hcols : wfColumns columns)
    (hwt : ∀ p ∈ tbl, Record.get p.2 "id" = some (Value.vstr p.1))
    (hwe : Record.get e "id" = none ∨ Record.get e "id" = some (Value.vstr i))
    (h : rowFor columns tbl i e = some r) :
    Record.get r "id" = some (Value.vstr i) := by
  obtain ⟨hnd, hid⟩ := hcols
  obtain ⟨c, hcmem, hcname⟩ : ∃ c ∈ columns, c.name = "id" := by
    simpa using hid
  have hfind : columns.find? (fun c' => decide (c'.name = "id")) = some c := by
    have := find?_col_self hnd hcmem
    rwa [hcname] at this
  unfold rowFor at h
  cases hx : assocGet tbl i with
  | none =>
    rw [hx] at h
    simp only [Option.some.injEq] at h
    subst h
    exact assocGet_set_self _ _ _
  | some ex =>
    rw [hx] at h
    by_cases hc : compareRecords ex e columns
    · simp [hc] at h
    · simp only [hc, if_neg, Bool.false_eq_true] at h
      cases h
      unfold mergeRecord
      rw [get_map_columns, hfind]
      simp only [Option.map_some']
      rw [hcname]
      have hex : Record.get ex "id" = some (Value.vstr i) := hwt _ (assocGet_mem hx)
      rcases hwe with hwe | hwe
      · simp [hwe, hex]
      · simp [hwe]

theorem compareRecords_rowFor {columns : List Column} {tbl : Table} {i : String}
    {e r : Record}
    (hwe : wfRecordFor i e)
    (h : rowFor columns tbl i e = some r) :
    compareRecords r e columns = true := by
  obtain ⟨hend, heid⟩ := hwe
  unfold compareRecords
  rw [List.all_eq_true]
  rintro ⟨k, v⟩ hf
  have hev : Record.get e k = some v := assocGet_of_mem hend hf
  cases hfind : columns.find? (fun c => decide (c.name = k)) with
  | none => simp [hfind]
  | some c =>
    have hcname : c.name = k := by
      have := List.find?_some hfind
      simpa using this
    simp only [hfind]
    by_cases hig : c.ignored
    · simp [hig]
    · simp only [hig, Bool.false_or]
      rw [decide_eq_true_eq]
      unfold rowFor at h
      cases hx : assocGet tbl i with
      | some ex =>
        rw [hx] at h
        by_cases hcmp : compareRecords ex e columns
        · simp [hcmp] at h
        · simp only [hcmp, Bool.false_eq_true, if_neg] at h
          cases h
          unfold mergeRecord
          rw [get_map_columns, hfind]
          simp only [Option.map_some', Option.some.injEq]
          rw [hcname, hev]
          rfl
      | none =>
        rw [hx] at h
        simp only [Option.some.injEq] at h
        subst h
        by_cases hk : k = "id"
        · subst hk
          have hset : Record.get
              (Record.set (createRecord columns e) "id" (Value.vstr i)) "id"
                = some (Value.vstr i) := assocGet_set_self _ _ _
          rw [hset]
          rcases heid with h0 | h0
          · rw [hev] at h0
            cases h0
          · rw [hev] at h0
            exact h0.symm
        · have hset : Record.get
              (Record.set (createRecord columns e) "id" (Value.vstr i)) k
                = Record.get (createRecord columns e) k :=
            assocGet_set_ne _ _ _ _ hk
          rw [hset]
          unfold createRecord
          rw [get_map_columns, hfind]
          simp only [Option.map_some', Option.some.injEq]
          rw [hcname, hev]
          rfl

/- Persist lemmas. -/

theorem persistRows_get_notmem {rows : List Record} {j : String}
    (h : ∀ r ∈ rows, recordId r ≠ j) :
    ∀ tbl : Table, assocGet (persistRows tbl rows) j = assocGet tbl j := by
  induction rows with
  | nil => intro tbl; rfl
  | cons r rest ih =>
    intro tbl
    have hr : recordId r ≠ j := h r (List.mem_cons_self _ _)
    have hrest : ∀ r' ∈ rest, recordId r' ≠ j := fun r' h' => h r' (List.mem_cons_of_mem _ h')
    simp only [persistRows, List.foldl_cons]
    have := ih hrest (assocSet tbl (recordId r) r)
    simp only [persistRows] at this
    rw [this]
    exact assocGet_set_ne _ _ _ _ (fun hc => hr hc.symm)

theorem persistRows_get_mem {rows : List Record} {r : Record}
    (hnd : (rows.map recordId).Nodup) (hr : r ∈ rows) :
    ∀ tbl : Table, assocGet (persistRows tbl rows) (recordId r) = some r := by
  induction rows with
  | nil => simp at hr
  | cons r0 rest ih =>
    intro tbl
    rw [List.map_cons, List.nodup_cons] at hnd
    rcases List.mem_cons.mp hr with h1 | h1
    · subst h1
      simp only [persistRows, List.foldl_cons]
      have hni : ∀ r' ∈ rest, recordId r' ≠ recordId r := by
        intro r' hr' hEq
        exact hnd.1 (hEq ▸ List.mem_map_of_mem recordId hr')
      have := persistRows_get_notmem hni (assocSet tbl (recordId r) r)
      simp only [persistRows] at this
      rw [this]
      exact assocGet_set_self _ _ _
    · simp only [persistRows, List.foldl_cons]
      have := ih hnd.2 h1 (assocSet tbl (recordId r0) r0)
      simpa only [persistRows] using this

theorem wfTable_assocSet {t : Table} {i : String} {r : Record}
    (hw : wfTable t) (hr : Record.get r "id" = some (Value.vstr i)) :
    wfTable (assocSet t i r) := by
  constructor
  · exact nodup_assocSet _ _ hw.1
  · intro p hp
    rcases mem_assocSet hp with h1 | h1
    · subst h1
      exact hr
    · exact hw.2 p h1

theorem wfTable_persistRows {rows : List Record}
    (hrows : ∀ r ∈ rows, Record.get r "id" = some (Value.vstr (recordId r))) :
    ∀ t : Table, wfTable t → wfTable (persistRows t rows) := by
  induction rows with
  | nil => intro t hw; exact hw
  | cons r rest ih =>
    intro t hw
    simp only [persistRows, List.foldl_cons]
    have h1 := wfTable_assocSet hw (hrows r (List.mem_cons_self _ _))
    have := ih (fun r' h' => hrows r' (List.mem_cons_of_mem _ h')) _ h1
    simpa only [persistRows] using this

/- Queue ids. -/

theorem queue_ids {columns : List Column} {tbl : Table}
    (hcols : wfColumns columns)
    (hwt : ∀ p ∈ tbl, Record.get p.2 "id" = some (Value.vstr p.1)) :
    ∀ ents : EntityMap, (∀ p ∈ ents, wfRecordFor p.1 p.2) →
    (ents.filterMap (fun p => rowFor columns tbl p.1 p.2)).map recordId =
      (ents.filter (fun p => (rowFor columns tbl p.1 p.2).isSome)).map Prod.fst := by
  intro ents
  induction ents with
  | nil => intro _; rfl
  | cons p rest ih =>
    intro hwe
    obtain ⟨i, e⟩ := p
    have hrest := ih (fun q hq => hwe q (List.mem_cons_of_mem _ hq))
    cases hx : rowFor columns tbl i e with
    | none => simp [List.filterMap_cons, List.filter_cons, hx, hrest]
    | some r =>
      have hid : recordId r = i :=
        recordId_of_get (rowFor_get_id hcols hwt ((hwe _ (List.mem_cons_self _ _)).2) hx)
      simp [List.filterMap_cons, List.filter_cons, hx, hrest, hid]

theorem queue_ids_nodup {columns : List Column} {tbl : Table} {ents : EntityMap}
    (hcols : wfColumns columns)
    (hwt : ∀ p ∈ tbl, Record.get p.2 "id" = some (Value.vstr p.1))
    (hwe : wfEntities ents) :
    ((ents.filterMap (fun p => rowFor columns tbl p.1 p.2)).map recordId).Nodup := by
  rw [queue_ids hcols hwt ents hwe.2]
  have hsub : List.Sublist
      ((ents.filter (fun p => (rowFor columns tbl p.1 p.2).isSome)).map Prod.fst)
      (ents.map Prod.fst) := (List.filter_sublist _).map _
  exact List.Nodup.sublist hsub hwe.1

/- Effect of processing one table's portion of a batch on the stored
table. -/

theorem tableAfter_get_some {columns : List Column} {tbl : Table} {ents : EntityMap}
    (hcols : wfColumns columns) (hwt : wfTable tbl) (hwe : wfEntities ents)
    {i : String} {e r : Record} (hmem : (i, e) ∈ ents)
    (hx : rowFor columns tbl i e = some r) :
    assocGet (tableAfter columns tbl ents) i = some r := by
  have hidr : recordId r = i :=
    recordId_of_get (rowFor_get_id hcols hwt.2 ((hwe.2 _ hmem).2) hx)
  have hrmem : r ∈ ents.filterMap (fun p => rowFor columns tbl p.1 p.2) :=
    List.mem_filterMap.mpr ⟨(i, e), hmem, hx⟩
  have := persistRows_get_mem (queue_ids_nodup hcols hwt.2 hwe) hrmem tbl
  rw [hidr] at this
  exact this

theorem tableAfter_get_none {columns : List Column} {tbl : Table} {ents : EntityMap}
    (hcols : wfColumns columns) (hwt : wfTable tbl) (hwe : wfEntities ents)
    {i : String} {e : Record} (hmem : (i, e) ∈ ents)
    (hx : rowFor columns tbl i e = none) :
    assocGet (tableAfter columns tbl ents) i = assocGet tbl i := by
  apply persistRows_get_notmem
  intro r hr
  obtain ⟨q, hq, hqr⟩ := List.mem_filterMap.mp hr
  obtain ⟨j, e'⟩ := q
  have hidr : recordId r = j :=
    recordId_of_get (rowFor_get_id hcols hwt.2 ((hwe.2 _ hq).2) hqr)
  rw [hidr]
  intro hji
  subst hji
  have h1 := assocGet_of_mem hwe.1 hq
  have h2 := assocGet_of_mem hwe.1 hmem
  rw [h1] at h2
  injection h2 with h2
  subst h2
  rw [hqr] at hx
  cases hx

theorem tableAfter_get_notmem {columns : List Column} {tbl : Table} {ents : EntityMap}
    (hcols : wfColumns columns) (hwt : wfTable tbl) (hwe : wfEntities ents)
    {j : String} (hj : j ∉ ents.map Prod.fst) :
    assocGet (tableAfter columns tbl ents) j = assocGet tbl j := by
  apply persistRows_get_notmem
  intro r hr
  obtain ⟨q, hq, hqr⟩ := List.mem_filterMap.mp hr
  obtain ⟨i, e'⟩ := q
  have hidr : recordId r = i :=
    recordId_of_get (rowFor_get_id hcols hwt.2 ((hwe.2 _ hq).2) hqr)
  rw [hidr]
  intro hij
  subst hij
  exact hj (List.mem_map_of_mem Prod.fst hq)

theorem wfTable_tableAfter {columns : List Column} {tbl : Table} {ents : EntityMap}
    (hcols : wfColumns columns) (hwt : wfTable tbl) (hwe : wfEntities ents) :
    wfTable (tableAfter columns tbl ents) := by
  apply wfTable_persistRows _ _ hwt
  intro r hr
  obtain ⟨q, hq, hqr⟩ := List.mem_filterMap.mp hr
  obtain ⟨j, e'⟩ := q
  have hid := rowFor_get_id hcols hwt.2 ((hwe.2 _ hq).2) hqr
  rw [recordId_of_get hid]
  exact hid

/- Applying the same table portion a second time queues nothing: every
record now compares as up to date. -/

theorem rowFor_tableAfter {columns : List Column} {tbl : Table} {ents : EntityMap}
    (hcols : wfColumns columns) (hwt : wfTable tbl) (hwe : wfEntities ents)
    {i : String} {e : Record} (hmem : (i, e) ∈ ents) :
    rowFor columns (tableAfter columns tbl ents) i e = none := by
  cases hx : rowFor columns tbl i e with
  | some r =>
    have hget := tableAfter_get_some hcols hwt hwe hmem hx
    have hwf1 : wfRecordFor i e := hwe.2 _ hmem
    have hcmp : compareRecords r e columns = true := compareRecords_rowFor hwf1 hx
    unfold rowFor
    rw [hget]
    simp [hcmp]
  | none =>
    have hget := tableAfter_get_none hcols hwt hwe hmem hx
    unfold rowFor
    rw [hget]
    unfold rowFor at hx
    cases hy : assocGet tbl i with
    | none => rw [hy] at hx; cases hx
    | some ex =>
      rw [hy] at hx
      by_cases hc : compareRecords ex e columns
      · simp [hc]
      · simp [hc] at hx

theorem buildRows_tableAfter {columns : List Column} {tbl : Table} {ents : EntityMap}
    (hcols : wfColumns columns) (hwt : wfTable tbl) (hwe : wfEntities ents) :
    buildRows columns (fetchByIds (tableAfter columns tbl ents) (ents.map Prod.fst)) ents
      = ([], ents.length) := by
  rw [buildRows_eq columns (wfTable_tableAfter hcols hwt hwe) ents
    (fun p hp => List.mem_map_of_mem _ hp)]
  have hall : ∀ p ∈ ents, rowFor columns (tableAfter columns tbl ents) p.1 p.2 = none := by
    intro p hp
    obtain ⟨i, e⟩ := p
    exact rowFor_tableAfter hcols hwt hwe hp
  have h1 : ents.filterMap (fun p => rowFor columns (tableAfter columns tbl ents) p.1 p.2)
      = [] := List.filterMap_eq_nil_iff.mpr hall
  have h2 : ents.filter
      (fun p => (rowFor columns (tableAfter columns tbl ents) p.1 p.2).isNone) = ents :=
    List.filter_eq_self.mpr (fun p hp => by rw [hall p hp]; rfl)
  rw [h1, h2]

/- State-level well-formedness helpers. -/

theorem wfTable_lookup {db : DBState} (hw : wfDB db) (T : String) :
    wfTable (lookupTable db.tables T) := by
  unfold lookupTable
  cases hx : assocGet db.tables T with
  | none => exact ⟨List.nodup_nil, by simp⟩
  | some t => exact hw.2 _ (assocGet_mem hx)

theorem wfColumns_lookup {db : DBState} {T : String} {M : Model} (hw : wfDB db)
    (h : lookupModel db.modelMap T = some M) : wfColumns (getColumns M) :=
  hw.1 _ (assocGet_mem h)

theorem wfDB_setTable {db : DBState} {T : String} {t : Table}
    (hw : wfDB db) (ht : wfTable t) :
    wfDB { db with tables := setTable db.tables T t } := by
  constructor
  · exact hw.1
  · intro p hp
    rcases mem_assocSet hp with h1 | h1
    · subst h1
      exact ht
    · exact hw.2 p h1

/- Branch unfoldings of `saveManyWith`. -/

theorem saveManyWith_cons_none {fail : String → Bool} {db : DBState} {T : String}
    {ents : EntityMap} {rest : TableMap}
    (hm : lookupModel db.modelMap T = none) :
    DB.saveManyWith fail db ((T, ents) :: rest) =
      (let r := DB.saveManyWith fail db rest
       { r with skipped := (T, ents.length) :: r.skipped }) := by
  simp only [DB.saveManyWith, hm]

theorem saveManyWith_cons_some {fail : String → Bool} {db : DBState} {T : String}
    {ents : EntityMap} {rest : TableMap} {M : Model}
    (hm : lookupModel db.modelMap T = some M) :
    DB.saveManyWith fail db ((T, ents) :: rest) =
      (let columns := getColumns M
       let tbl := lookupTable db.tables T
       let b := buildRows columns (fetchByIds tbl (ents.map Prod.fst)) ents
       if b.1.isEmpty then
         let r := DB.saveManyWith fail db rest
         { r with logs := (T, b.1.length, b.2) :: r.logs }
       else if fail T then
         { db := db, events := [], skipped := [], logs := [], err := some T }
       else
         let db2 := { db with tables := setTable db.tables T (persistRows tbl b.1) }
         let r := DB.saveManyWith fail db2 rest
         { r with
             events := { tableName := T, updated := b.1.map recordId } :: r.events,
             logs := (T, b.1.length, b.2) :: r.logs }) := by
  simp only [DB.saveManyWith, hm]

theorem saveManyWith_cons_some_wf {fail : String → Bool} {db : DBState} {T : String}
    {ents : EntityMap} {rest : TableMap} {M : Model}
    (hw : wfDB db) (hm : lookupModel db.modelMap T = some M) :
    DB.saveManyWith fail db ((T, ents) :: rest) =
      (let columns := getColumns M
       let tbl := lookupTable db.tables T
       let rows := ents.filterMap (fun p => rowFor columns tbl p.1 p.2)
       let n := (ents.filter (fun p => (rowFor columns tbl p.1 p.2).isNone)).length
       if rows.isEmpty then
         let r := DB.saveManyWith fail db rest
         { r with logs := (T, rows.length, n) :: r.logs }
       else if fail T then
         { db := db, events := [], skipped := [], logs := [], err := some T }
       else
         let db2 := { db with tables := setTable db.tables T (tableAfter columns tbl ents) }
         let r := DB.saveManyWith fail db2 rest
         { r with
             events := { tableName := T, updated := rows.map recordId } :: r.events,
             logs := (T, rows.length, n) :: r.logs }) := by
  rw [saveManyWith_cons_some hm]
  dsimp only
  rw [buildRows_eq (getColumns M) (wfTable_lookup hw T) ents
    (fun p hp => List.mem_map_of_mem _ hp)]
  dsimp only [tableAfter]

/- Structural invariants of `saveManyWith`. -/

theorem saveManyWith_modelMap (fail : String → Bool) :
    ∀ (batch : TableMap) (db : DBState),
    (DB.saveManyWith fail db batch).db.modelMap = db.modelMap := by
  intro batch
  induction batch with
  | nil => intro db; rfl
  | cons p rest ih =>
    intro db
    obtain ⟨T, ents⟩ := p
    cases hm : lookupModel db.modelMap T with
    | none => rw [saveManyWith_cons_none hm]; exact ih db
    | some M =>
      rw [saveManyWith_cons_some hm]
      dsimp only
      by_cases hemp : (buildRows (getColumns M)
          (fetchByIds (lookupTable db.tables T) (ents.map Prod.fst)) ents).1.isEmpty
      · rw [if_pos hemp]
        exact ih db
      · rw [if_neg hemp]
        by_cases hf : fail T
        · rw [if_pos hf]
        · rw [if_neg hf]
          exact ih _

theorem saveManyWith_table_stable (fail : String → Bool) {T : String} :
    ∀ (batch : TableMap), T ∉ batch.map Prod.fst →
    ∀ db : DBState,
    lookupTable (DB.saveManyWith fail db batch).db.tables T = lookupTable db.tables T := by
  intro batch
  induction batch with
  | nil => intro _ db; rfl
  | cons p rest ih =>
    intro hT db
    obtain ⟨T', ents⟩ := p
    simp only [List.map_cons, List.mem_cons] at hT
    push_neg at hT
    cases hm : lookupModel db.modelMap T' with
    | none => rw [saveManyWith_cons_none hm]; exact ih hT.2 db
    | some M =>
      rw [saveManyWith_cons_some hm]
      dsimp only
      by_cases hemp : (buildRows (getColumns M)
          (fetchByIds (lookupTable db.tables T') (ents.map Prod.fst)) ents).1.isEmpty
      · rw [if_pos hemp]
        exact ih hT.2 db
      · rw [if_neg hemp]
        by_cases hf : fail T'
        · rw [if_pos hf]
        · rw [if_neg hf]
          rw [ih hT.2]
          unfold lookupTable setTable
          rw [assocGet_set_ne _ _ _ _ (fun hc => hT.1 hc)]

theorem saveManyWith_unknown_stable (fail : String → Bool) {T : String} :
    ∀ (batch : TableMap) (db : DBState), lookupModel db.modelMap T = none →
    lookupTable (DB.saveManyWith fail db batch).db.tables T = lookupTable db.tables T := by
  intro batch
  induction batch with
  | nil => intro db _; rfl
  | cons p rest ih =>
    intro db hu
    obtain ⟨T', ents⟩ := p
    cases hm : lookupModel db.modelMap T' with
    | none => rw [saveManyWith_cons_none hm]; exact ih db hu
    | some M =>
      have hne : T' ≠ T := by
        intro hc
        subst hc
        rw [hu] at hm
        cases hm
      rw [saveManyWith_cons_some hm]
      dsimp only
      by_cases hemp : (buildRows (getColumns M)
          (fetchByIds (lookupTable db.tables T') (ents.map Prod.fst)) ents).1.isEmpty
      · rw [if_pos hemp]
        exact ih db hu
      · rw [if_neg hemp]
        by_cases hf : fail T'
        · rw [if_pos hf]
        · rw [if_neg hf]
          dsimp only
          refine Eq.trans (ih _ hu) ?_
          dsimp only
          unfold lookupTable setTable
          rw [assocGet_set_ne _ _ _ _ (fun hc => hne hc.symm)]

theorem saveMany_err_none :
    ∀ (batch : TableMap) (db : DBState), (DB.saveMany db batch).err = none := by
  intro batch
  induction batch with
  | nil => intro db; rfl
  | cons p rest ih =>
    intro db
    obtain ⟨T, ents⟩ := p
    unfold DB.saveMany at *
    cases hm : lookupModel db.modelMap T with
    | none => rw [saveManyWith_cons_none hm]; exact ih db
    | some M =>
      rw [saveManyWith_cons_some hm]
      dsimp only
      by_cases hemp : (buildRows (getColumns M)
          (fetchByIds (lookupTable db.tables T) (ents.map Prod.fst)) ents).1.isEmpty
      · rw [if_pos hemp]
        exact ih db
      · rw [if_neg hemp]
        rw [if_neg (by simp)]
        exact ih _

theorem wfDB_saveManyWith (fail : String → Bool) :
    ∀ (batch : TableMap), (∀ p ∈ batch, wfEntities p.2) →
    ∀ db : DBState, wfDB db → wfDB (DB.saveManyWith fail db batch).db := by
  intro batch
  induction batch with
  | nil => intro _ db hw; exact hw
  | cons p rest ih =>
    intro hb db hw
    obtain ⟨T, ents⟩ := p
    have hrest : ∀ p ∈ rest, wfEntities p.2 := fun q hq => hb q (List.mem_cons_of_mem _ hq)
    have hents : wfEntities ents := hb _ (List.mem_cons_self _ _)
    cases hm : lookupModel db.modelMap T with
    | none => rw [saveManyWith_cons_none hm]; exact ih hrest db hw
    | some M =>
      rw [saveManyWith_cons_some_wf hw hm]
      dsimp only
      by_cases hemp : (List.filterMap
          (fun p => rowFor (getColumns M) (lookupTable db.tables T) p.1 p.2) ents).isEmpty
      · rw [if_pos hemp]
        exact ih hrest db hw
      · rw [if_neg hemp]
        by_cases hf : fail T
        · rw [if_pos hf]
          exact hw
        · rw [if_neg hf]
          exact ih hrest _
            (wfDB_setTable hw
              (wfTable_tableAfter (wfColumns_lookup hw hm) (wfTable_lookup hw T) hents))

/- Idempotence of `saveMany`. -/

theorem saveMany_idempotent_aux :
    ∀ batch : TableMap, wfBatch batch → ∀ db : DBState, wfDB db →
    (DB.saveMany (DB.saveMany db batch).db batch).db = (DB.saveMany db batch).db ∧
    (DB.saveMany (DB.saveMany db batch).db batch).events = [] ∧
    (∀ l ∈ (DB.saveMany (DB.saveMany db batch).db batch).logs, l.2.1 = 0) := by
  intro batch
  induction batch with
  | nil =>
    intro _ db _
    exact ⟨rfl, rfl, by intro l hl; simp [DB.saveMany, DB.saveManyWith] at hl⟩
  | cons p rest ih =>
    intro hb db hw
    obtain ⟨T, ents⟩ := p
    have hnd := hb.1
    rw [List.map_cons, List.nodup_cons] at hnd
    have hT : T ∉ rest.map Prod.fst := hnd.1
    have hbrest : wfBatch rest := ⟨hnd.2, fun q hq => hb.2 q (List.mem_cons_of_mem _ hq)⟩
    have hents : wfEntities ents := hb.2 _ (List.mem_cons_self _ _)
    unfold DB.saveMany at *
    cases hm : lookupModel db.modelMap T with
    | none =>
      rw [saveManyWith_cons_none hm]
      dsimp only
      have hm2 : lookupModel
          (DB.saveManyWith (fun _ => false) db rest).db.modelMap T = none := by
        rw [saveManyWith_modelMap]
        exact hm
      rw [saveManyWith_cons_none hm2]
      dsimp only
      have hihs := ih hbrest db hw
      exact ⟨hihs.1, hihs.2.1, fun l hl => hihs.2.2 l hl⟩
    | some M =>
      have hcols : wfColumns (getColumns M) := wfColumns_lookup hw hm
      have hwt : wfTable (lookupTable db.tables T) := wfTable_lookup hw T
      rw [saveManyWith_cons_some_wf hw hm]
      dsimp only
      by_cases hemp : (List.filterMap
          (fun p => rowFor (getColumns M) (lookupTable db.tables T) p.1 p.2) ents).isEmpty
      · rw [if_pos hemp]
        dsimp only
        have hm2 : lookupModel
            (DB.saveManyWith (fun _ => false) db rest).db.modelMap T = some M := by
          rw [saveManyWith_modelMap]
          exact hm
        have hw2 : wfDB (DB.saveManyWith (fun _ => false) db rest).db :=
          wfDB_saveManyWith _ rest hbrest.2 db hw
        rw [saveManyWith_cons_some_wf hw2 hm2]
        dsimp only
        rw [saveManyWith_table_stable _ rest hT db]
        rw [if_pos hemp]
        dsimp only
        have hihs := ih hbrest db hw
        refine ⟨hihs.1, hihs.2.1, ?_⟩
        intro l hl
        rcases List.mem_cons.mp hl with h1 | h1
        · rw [List.isEmpty_iff] at hemp
          rw [h1, hemp]
          rfl
        · exact hihs.2.2 l h1
      · rw [if_neg hemp, if_neg (by simp)]
        dsimp only
        have hw2' : wfDB { db with tables := (setTable db.tables T
            (tableAfter (getColumns M) (lookupTable db.tables T) ents)) } :=
          wfDB_setTable hw (wfTable_tableAfter hcols hwt hents)
        have hm2 : lookupModel
            (DB.saveManyWith (fun _ => false)
              { db with tables := (setTable db.tables T
                (tableAfter (getColumns M) (lookupTable db.tables T) ents)) }
              rest).db.modelMap T = some M := by
          rw [saveManyWith_modelMap]
          exact hm
        have hw2 : wfDB (DB.saveManyWith (fun _ => false)
            { db with tables := (setTable db.tables T
              (tableAfter (getColumns M) (lookupTable db.tables T) ents)) }
            rest).db :=
          wfDB_saveManyWith _ rest hbrest.2 _ hw2'
        rw [saveManyWith_cons_some_wf hw2 hm2]
        dsimp only
        have hstab : lookupTable (DB.saveManyWith (fun _ => false)
            { db with tables := (setTable db.tables T
              (tableAfter (getColumns M) (lookupTable db.tables T) ents)) }
            rest).db.tables T =
            tableAfter (getColumns M) (lookupTable db.tables T) ents := by
          rw [saveManyWith_table_stable _ rest hT]
          unfold lookupTable setTable
          dsimp only
          rw [assocGet_set_self]
          rfl
        rw [hstab]
        have hall : ∀ p ∈ ents, rowFor (getColumns M)
            (tableAfter (getColumns M) (lookupTable db.tables T) ents) p.1 p.2 = none := by
          intro q hq
          obtain ⟨i, e⟩ := q
          exact rowFor_tableAfter hcols hwt hents hq
        have hrows2 : ents.filterMap (fun p => rowFor (getColumns M)
            (tableAfter (getColumns M) (lookupTable db.tables T) ents) p.1 p.2) = [] :=
          List.filterMap_eq_nil_iff.mpr hall
        rw [if_pos (by rw [hrows2]; rfl)]
        dsimp only
        have hihs := ih hbrest _ hw2'
        refine ⟨hihs.1, hihs.2.1, ?_⟩
        intro l hl
        rcases List.mem_cons.mp hl with h1 | h1
        · rw [h1, hrows2]
          rfl
        · exact hihs.2.2 l h1

/- The stored table of a registered batch table after the whole batch. -/

theorem saveMany_final_table :
    ∀ (pre : TableMap) (db : DBState), wfDB db → (∀ p ∈ pre, wfEntities p.2) →
    ∀ {T : String} {M : Model} (ents : EntityMap) (post : TableMap),
    T ∉ pre.map Prod.fst → T ∉ post.map Prod.fst →
    lookupModel db.modelMap T = some M →
    lookupTable (DB.saveMany db (pre ++ (T, ents) :: post)).db.tables T =
      tableAfter (getColumns M) (lookupTable db.tables T) ents := by
  intro pre
  induction pre with
  | nil =>
    intro db hw _ T M ents post _ hpost hm
    unfold DB.saveMany
    rw [List.nil_append, saveManyWith_cons_some_wf hw hm]
    dsimp only
    by_cases hemp : (List.filterMap
        (fun p => rowFor (getColumns M) (lookupTable db.tables T) p.1 p.2) ents).isEmpty
    · rw [if_pos hemp]
      dsimp only
      rw [saveManyWith_table_stable _ post hpost db]
      rw [List.isEmpty_iff] at hemp
      unfold tableAfter
      rw [hemp]
      rfl
    · rw [if_neg hemp, if_neg (by simp)]
      dsimp only
      rw [saveManyWith_table_stable _ post hpost]
      unfold lookupTable setTable
      dsimp only
      rw [assocGet_set_self]
      rfl
  | cons q pre' ih =>
    intro db hw hpre T M ents post hpre2 hpost hm
    obtain ⟨T', ents'⟩ := q
    simp only [List.map_cons, List.mem_cons] at hpre2
    push_neg at hpre2
    have hpre' : ∀ p ∈ pre', wfEntities p.2 := fun p hp => hpre p (List.mem_cons_of_mem _ hp)
    rw [List.cons_append]
    unfold DB.saveMany at *
    cases hm' : lookupModel db.modelMap T' with
    | none =>
      rw [saveManyWith_cons_none hm']
      dsimp only
      exact ih db hw hpre' ents post hpre2.2 hpost hm
    | some M' =>
      rw [saveManyWith_cons_some_wf hw hm']
      dsimp only
      by_cases hemp : (List.filterMap
          (fun p => rowFor (getColumns M') (lookupTable db.tables T') p.1 p.2) ents').isEmpty
      · rw [if_pos hemp]
        dsimp only
        exact ih db hw hpre' ents post hpre2.2 hpost hm
      · rw [if_neg hemp, if_neg (by simp)]
        dsimp only
        have hw2' : wfDB { db with tables := (setTable db.tables T'
            (tableAfter (getColumns M') (lookupTable db.tables T') ents')) } :=
          wfDB_setTable hw (wfTable_tableAfter (wfColumns_lookup hw hm')
            (wfTable_lookup hw T') (hpre _ (List.mem_cons_self _ _)))
        have hm2 : lookupModel ({ db with tables := (setTable db.tables T'
            (tableAfter (getColumns M') (lookupTable db.tables T') ents')) }
              : DBState).modelMap T = some M := hm
        have step := ih { db with tables := (setTable db.tables T'
            (tableAfter (getColumns M') (lookupTable db.tables T') ents')) }
          hw2' hpre' ents post hpre2.2 hpost hm2
        rw [step]
        have hT' : lookupTable ({ db with tables := (setTable db.tables T'
            (tableAfter (getColumns M') (lookupTable db.tables T') ents')) }
              : DBState).tables T = lookupTable db.tables T := by
          unfold lookupTable setTable
          dsimp only
          rw [assocGet_set_ne _ _ _ _ hpre2.1]
        rw [hT']

/- Commit events. -/

theorem saveManyWith_event_names (fail : String → Bool) :
    ∀ (batch : TableMap) (db : DBState) (e : CommitEvent),
    e ∈ (DB.saveManyWith fail db batch).events → e.tableName ∈ batch.map Prod.fst := by
  intro batch
  induction batch with
  | nil => intro db e he; simp [DB.saveManyWith] at he
  | cons p rest ih =>
    intro db e he
    obtain ⟨T, ents⟩ := p
    cases hm : lookupModel db.modelMap T with
    | none =>
      rw [saveManyWith_cons_none hm] at he
      exact List.mem_cons_of_mem _ (ih db e he)
    | some M =>
      rw [saveManyWith_cons_some hm] at he
      dsimp only at he
      by_cases hemp : (buildRows (getColumns M)
          (fetchByIds (lookupTable db.tables T) (ents.map Prod.fst)) ents).1.isEmpty
      · rw [if_pos hemp] at he
        exact List.mem_cons_of_mem _ (ih db e he)
      · rw [if_neg hemp] at he
        by_cases hf : fail T
        · rw [if_pos hf] at he
          simp at he
        · rw [if_neg hf] at he
          dsimp only at he
          rcases List.mem_cons.mp he with h1 | h1
          · subst h1
            exact List.mem_cons_self _ _
          · exact List.mem_cons_of_mem _ (ih _ e h1)

theorem saveManyWith_events_persist (fail : String → Bool) :
    ∀ (batch : TableMap) (db : DBState) (e : CommitEvent),
    e ∈ (DB.saveManyWith fail db batch).events →
    fail e.tableName = false ∧ e.updated ≠ [] := by
  intro batch
  induction batch with
  | nil => intro db e he; simp [DB.saveManyWith] at he
  | cons p rest ih =>
    intro db e he
    obtain ⟨T, ents⟩ := p
    cases hm : lookupModel db.modelMap T with
    | none =>
      rw [saveManyWith_cons_none hm] at he
      exact ih db e he
    | some M =>
      rw [saveManyWith_cons_some hm] at he
      dsimp only at he
      by_cases hemp : (buildRows (getColumns M)
          (fetchByIds (lookupTable db.tables T) (ents.map Prod.fst)) ents).1.isEmpty
      · rw [if_pos hemp] at he
        exact ih db e he
      · rw [if_neg hemp] at he
        by_cases hf : fail T
        · rw [if_pos hf] at he
          simp at he
        · rw [if_neg hf] at he
          dsimp only at he
          rcases List.mem_cons.mp he with h1 | h1
          · subst h1
            constructor
            · simpa using hf
            · intro hc
              rw [List.isEmpty_iff] at hemp
              simp only [List.map_eq_nil_iff] at hc
              exact hemp hc
          · exact ih _ e h1

theorem saveMany_events_at :
    ∀ (pre : TableMap) (db : DBState), wfDB db → (∀ p ∈ pre, wfEntities p.2) →
    ∀ {T : String} {M : Model} (ents : EntityMap) (post : TableMap),
    T ∉ pre.map Prod.fst → T ∉ post.map Prod.fst →
    lookupModel db.modelMap T = some M →
    (DB.saveMany db (pre ++ (T, ents) :: post)).events.filter
        (fun e => decide (e.tableName = T)) =
      (if (ents.filterMap
            (fun p => rowFor (getColumns M) (lookupTable db.tables T) p.1 p.2)).isEmpty
       then []
       else [{ tableName := T,
               updated := (ents.filterMap
                 (fun p => rowFor (getColumns M) (lookupTable db.tables T) p.1 p.2)).map
                   recordId }]) := by
  intro pre
  induction pre with
  | nil =>
    intro db hw _ T M ents post _ hpost hm
    unfold DB.saveMany
    rw [List.nil_append, saveManyWith_cons_some_wf hw hm]
    dsimp only
    have hfilpost : ∀ db' : DBState,
        (DB.saveManyWith (fun _ => false) db' post).events.filter
          (fun e => decide (e.tableName = T)) = [] := by
      intro db'
      rw [List.filter_eq_nil_iff]
      intro e he
      have := saveManyWith_event_names _ post db' e he
      simp only [decide_eq_true_eq]
      intro hc
      rw [hc] at this
      exact hpost this
    by_cases hemp : (List.filterMap
        (fun p => rowFor (getColumns M) (lookupTable db.tables T) p.1 p.2) ents).isEmpty
    · rw [if_pos hemp, if_pos hemp]
      dsimp only
      exact hfilpost db
    · rw [if_neg hemp, if_neg (by simp), if_neg hemp]
      dsimp only
      rw [List.filter_cons]
      simp only [decide_eq_true_eq, if_true]
      rw [hfilpost]
  | cons q pre' ih =>
    intro db hw hpre T M ents post hpre2 hpost hm
    obtain ⟨T', ents'⟩ := q
    simp only [List.map_cons, List.mem_cons] at hpre2
    push_neg at hpre2
    have hpre' : ∀ p ∈ pre', wfEntities p.2 := fun p hp => hpre p (List.mem_cons_of_mem _ hp)
    rw [List.cons_append]
    unfold DB.saveMany at *
    cases hm' : lookupModel db.modelMap T' with
    | none =>
      rw [saveManyWith_cons_none hm']
      dsimp only
      exact ih db hw hpre' ents post hpre2.2 hpost hm
    | some M' =>
      rw [saveManyWith_cons_some_wf hw hm']
      dsimp only
      by_cases hemp : (List.filterMap
          (fun p => rowFor (getColumns M') (lookupTable db.tables T') p.1 p.2) ents').isEmpty
      · rw [if_pos hemp]
        dsimp only
        exact ih db hw hpre' ents post hpre2.2 hpost hm
      · rw [if_neg hemp, if_neg (by simp)]
        dsimp only
        have hw2' : wfDB { db with tables := (setTable db.tables T'
            (tableAfter (getColumns M') (lookupTable db.tables T') ents')) } :=
          wfDB_setTable hw (wfTable_tableAfter (wfColumns_lookup hw hm')
            (wfTable_lookup hw T') (hpre _ (List.mem_cons_self _ _)))
        have hm2 : lookupModel ({ db with tables := (setTable db.tables T'
            (tableAfter (getColumns M') (lookupTable db.tables T') ents')) }
              : DBState).modelMap T = some M := hm
        have step := ih { db with tables := (setTable db.tables T'
            (tableAfter (getColumns M') (lookupTable db.tables T') ents')) }
          hw2' hpre' ents post hpre2.2 hpost hm2
        have hT' : lookupTable ({ db with tables := (setTable db.tables T'
            (tableAfter (getColumns M') (lookupTable db.tables T') ents')) }
              : DBState).tables T = lookupTable db.tables T := by
          unfold lookupTable setTable
          dsimp only
          rw [assocGet_set_ne _ _ _ _ hpre2.1]
        rw [hT'] at step
        rw [List.filter_cons]
        simp only [decide_eq_true_eq]
        rw [if_neg (fun hc => hpre2.1 hc.symm)]
        exact step

/- Unknown tables are skipped, logged, and change nothing. -/

theorem saveMany_skips_unknown :
    ∀ (pre : TableMap) (db : DBState) {T : String} (ents : EntityMap) (post : TableMap),
    lookupModel db.modelMap T = none →
    (DB.saveMany db (pre ++ (T, ents) :: post)).db = (DB.saveMany db (pre ++ post)).db ∧
    (DB.saveMany db (pre ++ (T, ents) :: post)).events
      = (DB.saveMany db (pre ++ post)).events ∧
    (T, ents.length) ∈ (DB.saveMany db (pre ++ (T, ents) :: post)).skipped := by
  intro pre
  induction pre with
  | nil =>
    intro db T ents post hm
    unfold DB.saveMany
    rw [List.nil_append, List.nil_append, saveManyWith_cons_none hm]
    dsimp only
    exact ⟨rfl, rfl, List.mem_cons_self _ _⟩
  | cons q pre' ih =>
    intro db T ents post hm
    obtain ⟨T', ents'⟩ := q
    rw [List.cons_append, List.cons_append]
    unfold DB.saveMany at *
    cases hm' : lookupModel db.modelMap T' with
    | none =>
      rw [saveManyWith_cons_none hm', saveManyWith_cons_none hm']
      dsimp only
      have hih := ih db ents post hm
      exact ⟨hih.1, hih.2.1, List.mem_cons_of_mem _ hih.2.2⟩
    | some M =>
      rw [saveManyWith_cons_some hm', saveManyWith_cons_some hm']
      dsimp only
      by_cases hemp : (buildRows (getColumns M)
          (fetchByIds (lookupTable db.tables T') (ents'.map Prod.fst)) ents').1.isEmpty
      · rw [if_pos hemp, if_pos hemp]
        dsimp only
        exact ih db ents post hm
      · rw [if_neg hemp, if_neg hemp, if_neg (by simp), if_neg (by simp)]
        dsimp only
        have hm2 : lookupModel ({ db with tables := (setTable db.tables T'
            (persistRows (lookupTable db.tables T')
              (buildRows (getColumns M)
                (fetchByIds (lookupTable db.tables T') (ents'.map Prod.fst)) ents').1)) }
              : DBState).modelMap T = none := hm
        have hih := ih { db with tables := (setTable db.tables T'
            (persistRows (lookupTable db.tables T')
              (buildRows (getColumns M)
                (fetchByIds (lookupTable db.tables T') (ents'.map Prod.fst)) ents').1)) }
          ents post hm2
        refine ⟨hih.1, ?_, hih.2.2⟩
        rw [hih.2.1]

/- A failing persist aborts the rest of the batch: the state and events
are exactly those of the prefix before the failing table, and the error
propagates. -/

theorem saveManyWith_fail_aborts (fail : String → Bool) :
    ∀ (pre : TableMap) (db : DBState), wfDB db → (∀ p ∈ pre, wfEntities p.2) →
    (∀ p ∈ pre, fail p.1 = false) →
    ∀ {T : String} {M : Model} (ents : EntityMap) (post : TableMap),
    T ∉ pre.map Prod.fst →
    lookupModel db.modelMap T = some M → fail T = true →
    ¬ (ents.filterMap
        (fun p => rowFor (getColumns M) (lookupTable db.tables T) p.1 p.2)).isEmpty →
    (DB.saveManyWith fail db (pre ++ (T, ents) :: post)).db
      = (DB.saveManyWith fail db pre).db ∧
    (DB.saveManyWith fail db (pre ++ (T, ents) :: post)).events
      = (DB.saveManyWith fail db pre).events ∧
    (DB.saveManyWith fail db (pre ++ (T, ents) :: post)).err = some T := by
  intro pre
  induction pre with
  | nil =>
    intro db hw _ _ T M ents post _ hm hf hq
    rw [List.nil_append, saveManyWith_cons_some_wf hw hm]
    dsimp only
    rw [if_neg hq, if_pos hf]
    exact ⟨rfl, rfl, rfl⟩
  | cons q pre' ih =>
    intro db hw hpre hfl T M ents post hpre2 hm hf hq
    obtain ⟨T', ents'⟩ := q
    simp only [List.map_cons, List.mem_cons] at hpre2
    push_neg at hpre2
    have hpre' : ∀ p ∈ pre', wfEntities p.2 := fun p hp => hpre p (List.mem_cons_of_mem _ hp)
    have hfl' : ∀ p ∈ pre', fail p.1 = false := fun p hp => hfl p (List.mem_cons_of_mem _ hp)
    have hfT' : fail T' = false := hfl _ (List.mem_cons_self _ _)
    rw [List.cons_append]
    cases hm' : lookupModel db.modelMap T' with
    | none =>
      rw [saveManyWith_cons_none hm', saveManyWith_cons_none hm']
      dsimp only
      have hih := ih db hw hpre' hfl' ents post hpre2.2 hm hf hq
      exact ⟨hih.1, hih.2.1, hih.2.2⟩
    | some M' =>
      rw [saveManyWith_cons_some_wf hw hm', saveManyWith_cons_some_wf hw hm']
      dsimp only
      by_cases hemp : (List.filterMap
          (fun p => rowFor (getColumns M') (lookupTable db.tables T') p.1 p.2) ents').isEmpty
      · rw [if_pos hemp, if_pos hemp]
        dsimp only
        have hih := ih db hw hpre' hfl' ents post hpre2.2 hm hf hq
        exact ⟨hih.1, hih.2.1, hih.2.2⟩
      · rw [if_neg hemp, if_neg hemp,
          if_neg (by rw [hfT']; simp), if_neg (by rw [hfT']; simp)]
        dsimp only
        have hw2' : wfDB { db with tables := (setTable db.tables T'
            (tableAfter (getColumns M') (lookupTable db.tables T') ents')) } :=
          wfDB_setTable hw (wfTable_tableAfter (wfColumns_lookup hw hm')
            (wfTable_lookup hw T') (hpre _ (List.mem_cons_self _ _)))
        have hm2 : lookupModel ({ db with tables := (setTable db.tables T'
            (tableAfter (getColumns M') (lookupTable db.tables T') ents')) }
              : DBState).modelMap T = some M := hm
        have hT'stab : lookupTable ({ db with tables := (setTable db.tables T'
            (tableAfter (getColumns M') (lookupTable db.tables T') ents')) }
              : DBState).tables T = lookupTable db.tables T := by
          unfold lookupTable setTable
          dsimp only
          rw [assocGet_set_ne _ _ _ _ hpre2.1]
        have hq2 : ¬ (ents.filterMap
            (fun p => rowFor (getColumns M)
              (lookupTable ({ db with tables := (setTable db.tables T'
                (tableAfter (getColumns M') (lookupTable db.tables T') ents')) }
                  : DBState).tables T) p.1 p.2)).isEmpty := by
          rw [hT'stab]
          exact hq
        have hih := ih { db with tables := (setTable db.tables T'
            (tableAfter (getColumns M') (lookupTable db.tables T') ents')) }
          hw2' hpre' hfl' ents post hpre2.2 hm2 hf hq2
        exact ⟨hih.1, by rw [hih.2.1], hih.2.2⟩

/- Deletion lemmas. -/

theorem assocSet_id {α : Type} {l : List (String × α)} {k : String} {v : α}
    (h : assocGet l k = some v) : assocSet l k v = l := by
  induction l with
  | nil => simp [assocGet] at h
  | cons p rest ih =>
    obtain ⟨a, b⟩ := p
    by_cases hp : a = k
    · subst hp
      simp [assocGet] at h
      subst h
      simp [assocSet]
    · simp only [assocGet, if_neg hp] at h
      simp [assocSet, hp, ih h]

theorem assocGet_isSome_of_mem {α : Type} {l : List (String × α)} {p : String × α}
    (h : p ∈ l) : ∃ v, assocGet l p.1 = some v := by
  induction l with
  | nil => simp at h
  | cons q rest ih =>
    obtain ⟨a, b⟩ := q
    by_cases hp : a = p.1
    · exact ⟨b, by simp [assocGet, hp]⟩
    · rcases List.mem_cons.mp h with h1 | h1
      · exact absurd (congrArg Prod.fst h1).symm hp
      · obtain ⟨v, hv⟩ := ih h1
        exact ⟨v, by simp [assocGet, hp, hv]⟩

theorem removeRows_idem (t : Table) (ids : List String) :
    DB.removeRows (DB.removeRows t ids) ids = DB.removeRows t ids := by
  unfold DB.removeRows
  rw [List.filter_filter]
  simp

theorem removeRows_noop {t : Table} {ids : List String}
    (h : ∀ i ∈ ids, assocGet t i = none) : DB.removeRows t ids = t := by
  unfold DB.removeRows
  rw [List.filter_eq_self]
  intro p hp
  simp only [Bool.not_eq_eq_eq_not, Bool.not_true, decide_eq_false_iff_not]
  intro hc
  obtain ⟨v, hv⟩ := assocGet_isSome_of_mem hp
  rw [h p.1 hc] at hv
  cases hv

theorem deleteTables_modelMap :
    ∀ (l : List (String × List String)) (db : DBState),
    (DB.deleteTables db l).1.modelMap = db.modelMap := by
  intro l
  induction l with
  | nil => intro db; rfl
  | cons q rest ih =>
    intro db
    obtain ⟨T, ids⟩ := q
    cases hm : lookupModel db.modelMap T with
    | none => simp only [DB.deleteTables, hm]; exact ih db
    | some M => simp only [DB.deleteTables, hm]; exact ih _

theorem deleteTables_assocGet_stable {T : String} :
    ∀ (l : List (String × List String)), T ∉ l.map Prod.fst →
    ∀ db : DBState, assocGet (DB.deleteTables db l).1.tables T = assocGet db.tables T := by
  intro l
  induction l with
  | nil => intro _ db; rfl
  | cons q rest ih =>
    intro hT db
    obtain ⟨T', ids⟩ := q
    simp only [List.map_cons, List.mem_cons] at hT
    push_neg at hT
    cases hm : lookupModel db.modelMap T' with
    | none => simp only [DB.deleteTables, hm]; exact ih hT.2 db
    | some M =>
      simp only [DB.deleteTables, hm]
      rw [ih hT.2]
      try dsimp only
      unfold setTable
      exact assocGet_set_ne _ _ _ _ hT.1

theorem lookupTable_of_assocGet {ts : List (String × Table)} {T : String} {t : Table}
    (h : assocGet ts T = some t) : lookupTable ts T = t := by
  unfold lookupTable
  rw [h]
  rfl

theorem deleteTables_spec :
    ∀ (l : List (String × List String)) (db : DBState), (l.map Prod.fst).Nodup →
    (∀ p ∈ l, (lookupModel db.modelMap p.1).isSome →
      lookupTable (DB.deleteTables db l).1.tables p.1
        = DB.removeRows (lookupTable db.tables p.1) p.2) ∧
    (∀ p ∈ l, lookupModel db.modelMap p.1 = none →
      lookupTable (DB.deleteTables db l).1.tables p.1 = lookupTable db.tables p.1) ∧
    (DB.deleteTables (DB.deleteTables db l).1 l).1 = (DB.deleteTables db l).1 := by
  intro l
  induction l with
  | nil => intro db _; exact ⟨by simp, by simp, rfl⟩
  | cons q rest ih =>
    intro db hnd
    obtain ⟨T, ids⟩ := q
    rw [List.map_cons, List.nodup_cons] at hnd
    cases hm : lookupModel db.modelMap T with
    | none =>
      simp only [DB.deleteTables, hm]
      try dsimp only
      have hih := ih db hnd.2
      refine ⟨?_, ?_, ?_⟩
      · intro p hp hps
        rcases List.mem_cons.mp hp with h1 | h1
        · rw [h1] at hps
          simp [hm] at hps
        · exact hih.1 p h1 hps
      · intro p hp hpn
        rcases List.mem_cons.mp hp with h1 | h1
        · subst h1
          unfold lookupTable
          rw [deleteTables_assocGet_stable rest hnd.1 db]
        · exact hih.2.1 p h1 hpn
      · have hm2 : lookupModel (DB.deleteTables db rest).1.modelMap T = none := by
          rw [deleteTables_modelMap]
          exact hm
        simp only [DB.deleteTables, hm2]
        exact hih.2.2
    | some M =>
      simp only [DB.deleteTables, hm]
      try dsimp only
      have hw2eq : lookupTable ({ db with tables := (setTable db.tables T
          (DB.removeRows (lookupTable db.tables T) ids)) } : DBState).tables T
            = DB.removeRows (lookupTable db.tables T) ids := by
        unfold lookupTable setTable
        try dsimp only
        rw [assocGet_set_self]
        rfl
      have hstab : ∀ T'', T'' ≠ T → lookupTable ({ db with tables := (setTable db.tables T
          (DB.removeRows (lookupTable db.tables T) ids)) } : DBState).tables T''
            = lookupTable db.tables T'' := by
        intro T'' hne
        unfold lookupTable setTable
        try dsimp only
        rw [assocGet_set_ne _ _ _ _ hne]
      have hih := ih { db with tables := (setTable db.tables T
          (DB.removeRows (lookupTable db.tables T) ids)) } hnd.2
      refine ⟨?_, ?_, ?_⟩
      · intro p hp hps
        rcases List.mem_cons.mp hp with h1 | h1
        · subst h1
          try dsimp only
          unfold lookupTable
          rw [deleteTables_assocGet_stable rest hnd.1]
          try dsimp only
          unfold setTable
          rw [assocGet_set_self]
          rfl
        · have hne : p.1 ≠ T := by
            intro hc
            have hmm : p.1 ∈ List.map Prod.fst rest := List.mem_map_of_mem Prod.fst h1
            rw [hc] at hmm
            exact hnd.1 hmm
          have hps2 : (lookupModel ({ db with tables := (setTable db.tables T
              (DB.removeRows (lookupTable db.tables T) ids)) } : DBState).modelMap p.1).isSome :=
            hps
          rw [hih.1 p h1 hps2, hstab p.1 hne]
      · intro p hp hpn
        rcases List.mem_cons.mp hp with h1 | h1
        · exfalso
          rw [h1] at hpn
          simp [hm] at hpn
        · have hne : p.1 ≠ T := by
            intro hc
            have hmm : p.1 ∈ List.map Prod.fst rest := List.mem_map_of_mem Prod.fst h1
            rw [hc] at hmm
            exact hnd.1 hmm
          have hpn2 : lookupModel ({ db with tables := (setTable db.tables T
              (DB.removeRows (lookupTable db.tables T) ids)) } : DBState).modelMap p.1 = none :=
            hpn
          rw [hih.2.1 p h1 hpn2, hstab p.1 hne]
      · have hm2 : lookupModel (DB.deleteTables { db with tables := (setTable db.tables T
            (DB.removeRows (lookupTable db.tables T) ids)) } rest).1.modelMap T = some M := by
          rw [deleteTables_modelMap]
          exact hm
        simp only [DB.deleteTables, hm2]
        have hgets : assocGet (DB.deleteTables { db with tables := (setTable db.tables T
            (DB.removeRows (lookupTable db.tables T) ids)) } rest).1.tables T
              = some (DB.removeRows (lookupTable db.tables T) ids) := by
          rw [deleteTables_assocGet_stable rest hnd.1]
          try dsimp only
          unfold setTable
          exact assocGet_set_self _ _ _
        have hlook : lookupTable (DB.deleteTables { db with tables := (setTable db.tables T
            (DB.removeRows (lookupTable db.tables T) ids)) } rest).1.tables T
              = DB.removeRows (lookupTable db.tables T) ids :=
          lookupTable_of_assocGet hgets
        have hsetid : setTable (DB.deleteTables { db with tables := (setTable db.tables T
            (DB.removeRows (lookupTable db.tables T) ids)) } rest).1.tables T
              (DB.removeRows (lookupTable (DB.deleteTables { db with tables := (setTable db.tables T
                (DB.removeRows (lookupTable db.tables T) ids)) } rest).1.tables T) ids)
            = (DB.deleteTables { db with tables := (setTable db.tables T
                (DB.removeRows (lookupTable db.tables T) ids)) } rest).1.tables := by
          rw [hlook, removeRows_idem]
          unfold setTable
          exact assocSet_id hgets
        rw [hsetid]
        have hfin := hih.2.2
        have heta : ∀ s : DBState, ({ s with tables := s.tables } : DBState) = s := by
          intro s
          rfl
        rw [heta]
        exact hfin

/- Claim theorems. -/

/-- C1: applying the same synchronization batch a second time to the
store state produced by the first application yields the same final
stored state and zero upserts: no commit event is dispatched and every
per-table save log reports zero persisted rows (every record compares as
up to date, so no row is queued and no persist call is made). -/
theorem claim_C1_saveMany_idempotent (db : DBState) (batch : TableMap)
    (hw : wfDB db) (hb : wfBatch batch) :
    (DB.saveMany (DB.saveMany db batch).db batch).db = (DB.saveMany db batch).db ∧
    (DB.saveMany (DB.saveMany db batch).db batch).events = [] ∧
    (∀ l ∈ (DB.saveMany (DB.saveMany db batch).db batch).logs, l.2.1 = 0) :=
  saveMany_idempotent_aux batch hb db hw

/-- Witness for C1 on a concrete state and batch with a create, a merge,
an up-to-date pair, and an unknown table. -/
theorem claim_C1_witness :
    wfDB sampleDB ∧ wfBatch sampleBatch ∧
    ((DB.saveMany (DB.saveMany sampleDB sampleBatch).db sampleBatch).db
        = (DB.saveMany sampleDB sampleBatch).db ∧
     (DB.saveMany (DB.saveMany sampleDB sampleBatch).db sampleBatch).events = [] ∧
     (∀ l ∈ (DB.saveMany (DB.saveMany sampleDB sampleBatch).db sampleBatch).logs,
        l.2.1 = 0)) :=
  ⟨by decide, by decide,
    claim_C1_saveMany_idempotent sampleDB sampleBatch (by decide) (by decide)⟩

/-- C4: a batch naming a table with no registered model does not fail:
the unknown table's records are never written (final state, events and
even the unknown table's stored rows are exactly as if the table were
absent from the batch), the skip is logged with its record count, and
processing continues with the remaining tables. -/
theorem claim_C4_unknown_table (db : DBState) (pre post : TableMap) (T : String)
    (ents : EntityMap) (hm : lookupModel db.modelMap T = none) :
    (DB.saveMany db (pre ++ (T, ents) :: post)).db = (DB.saveMany db (pre ++ post)).db ∧
    (DB.saveMany db (pre ++ (T, ents) :: post)).events
      = (DB.saveMany db (pre ++ post)).events ∧
    (DB.saveMany db (pre ++ (T, ents) :: post)).err = none ∧
    (T, ents.length) ∈ (DB.saveMany db (pre ++ (T, ents) :: post)).skipped ∧
    lookupTable (DB.saveMany db (pre ++ (T, ents) :: post)).db.tables T
      = lookupTable db.tables T := by
  have h := saveMany_skips_unknown pre db ents post hm
  exact ⟨h.1, h.2.1, saveMany_err_none _ _, h.2.2,
    saveManyWith_unknown_stable _ _ db hm⟩

/-- Witness for C4: the `ghosts` table of the sample batch is
unregistered and is skipped without failing the sync. -/
theorem claim_C4_witness :
    lookupModel sampleDB.modelMap "ghosts" = none ∧
    ((DB.saveMany sampleDB ([("games", gamesEnts)] ++
        ("ghosts", [("9", [("x", Value.vint 0)])]) :: [("pairs", [("1", pairInc)])])).db
      = (DB.saveMany sampleDB ([("games", gamesEnts)] ++ [("pairs", [("1", pairInc)])])).db ∧
     (DB.saveMany sampleDB ([("games", gamesEnts)] ++
        ("ghosts", [("9", [("x", Value.vint 0)])]) :: [("pairs", [("1", pairInc)])])).events
      = (DB.saveMany sampleDB
          ([("games", gamesEnts)] ++ [("pairs", [("1", pairInc)])])).events ∧
     (DB.saveMany sampleDB ([("games", gamesEnts)] ++
        ("ghosts", [("9", [("x", Value.vint 0)])]) :: [("pairs", [("1", pairInc)])])).err
      = none ∧
     ("ghosts", 1) ∈ (DB.saveMany sampleDB ([("games", gamesEnts)] ++
        ("ghosts", [("9", [("x", Value.vint 0)])]) :: [("pairs", [("1", pairInc)])])).skipped ∧
     lookupTable (DB.saveMany sampleDB ([("games", gamesEnts)] ++
        ("ghosts", [("9", [("x", Value.vint 0)])]) ::
          [("pairs", [("1", pairInc)])])).db.tables "ghosts"
      = lookupTable sampleDB.tables "ghosts") :=
  ⟨by decide, claim_C4_unknown_table sampleDB [("games", gamesEnts)]
    [("pairs", [("1", pairInc)])] "ghosts" [("9", [("x", Value.vint 0)])] (by decide)⟩

/-- C6: a commit event is dispatched only for a table whose queued rows
were actually persisted: every emitted event names a table whose persist
call succeeded (did not fail) and carries a non-empty id list, and in
the program order of the model the dispatch happens strictly after the
store write that produced the new state. -/
theorem claim_C6_commit_after_persist (fail : String → Bool) (db : DBState)
    (batch : TableMap) (e : CommitEvent)
    (he : e ∈ (DB.saveManyWith fail db batch).events) :
    fail e.tableName = false ∧ e.updated ≠ [] :=
  saveManyWith_events_persist fail batch db e he

/-- Witness for C6: the `games` commit of the sample batch. -/
theorem claim_C6_witness :
    ({ tableName := "games", updated := ["1", "2", "3"] } : CommitEvent)
        ∈ (DB.saveManyWith (fun _ => false) sampleDB sampleBatch).events ∧
    ((fun _ => false) ("games" : String) = false ∧ (["1", "2", "3"] : List String) ≠ []) :=
  ⟨by decide,
    claim_C6_commit_after_persist (fun _ => false) sampleDB sampleBatch
      { tableName := "games", updated := ["1", "2", "3"] } (by decide)⟩

/-- C9: `DB.close` is idempotent: closing a second time after a
successful close leaves the state exactly as the first close did (the
modelled `conn.close` contract has no error on a second call). -/
theorem claim_C9_close_idempotent (db : DBState) :
    DB.close (DB.close db) = DB.close db := rfl

/-- C10: `DB.saveOne` is observably equivalent to `DB.saveMany` on the
singleton batch: the entire result (final state, commit events, logs,
error) coincides. -/
theorem claim_C10_saveOne_eq_saveMany (db : DBState) (tableName id : String)
    (record : Record) :
    DB.saveOne db tableName id record = DB.saveMany db [(tableName, [(id, record)])] := rfl

theorem batch_nodup_split {pre post : TableMap} {T : String} {ents : EntityMap}
    (h : ((pre ++ (T, ents) :: post).map Prod.fst).Nodup) :
    T ∉ pre.map Prod.fst ∧ T ∉ post.map Prod.fst := by
  rw [List.map_append, List.map_cons] at h
  rw [List.nodup_append] at h
  obtain ⟨h1, h2, hdis⟩ := h
  rw [List.nodup_cons] at h2
  constructor
  · intro hc
    exact hdis hc (List.mem_cons_self _ _)
  · exact h2.1

/-- C2: a record with an existing stored counterpart that is not up to
date is written as the merge of the stored record with the incoming
partial record: the final stored row at that id is `mergeRecord`, on
which every field present in the incoming record takes the incoming
value and every schema field absent from the incoming record keeps its
previously stored value. -/
theorem claim_C2_merge (db : DBState) (pre post : TableMap) (T : String) (M : Model)
    (ents : EntityMap) (i : String) (inc ex : Record)
    (hw : wfDB db) (hb : wfBatch (pre ++ (T, ents) :: post))
    (hm : lookupModel db.modelMap T = some M)
    (hmem : (i, inc) ∈ ents)
    (hex : assocGet (lookupTable db.tables T) i = some ex)
    (hch : compareRecords ex inc (getColumns M) = false) :
    assocGet (lookupTable (DB.saveMany db (pre ++ (T, ents) :: post)).db.tables T) i
      = some (mergeRecord (getColumns M) ex inc) ∧
    (∀ c ∈ getColumns M, (Record.get inc c.name).isSome →
      Record.get (mergeRecord (getColumns M) ex inc) c.name = Record.get inc c.name) ∧
    (∀ c ∈ getColumns M, Record.get inc c.name = none → (Record.get ex c.name).isSome →
      Record.get (mergeRecord (getColumns M) ex inc) c.name = Record.get ex c.name) := by
  have hsplit := batch_nodup_split hb.1
  have hents : wfEntities ents := hb.2 (T, ents)
    (List.mem_append_right _ (List.mem_cons_self _ _))
  have hpre : ∀ p ∈ pre, wfEntities p.2 :=
    fun p hp => hb.2 p (List.mem_append_left _ hp)
  have hcols : wfColumns (getColumns M) := wfColumns_lookup hw hm
  have hx : rowFor (getColumns M) (lookupTable db.tables T) i inc
      = some (mergeRecord (getColumns M) ex inc) := by
    unfold rowFor
    rw [hex]
    simp [hch]
  refine ⟨?_, ?_, ?_⟩
  · rw [saveMany_final_table pre db hw hpre ents post hsplit.1 hsplit.2 hm]
    exact tableAfter_get_some hcols (wfTable_lookup hw T) hents hmem hx
  · intro c hc hsome
    unfold mergeRecord
    rw [get_map_columns, find?_col_self hcols.1 hc]
    cases hv : Record.get inc c.name with
    | none => rw [hv] at hsome; cases hsome
    | some v => simp [hv]
  · intro c hc hnone hsome
    unfold mergeRecord
    rw [get_map_columns, find?_col_self hcols.1 hc]
    cases hv : Record.get ex c.name with
    | none => rw [hv] at hsome; cases hsome
    | some v => simp [hnone, hv]

/-- Witness for C2 on the spec's merge example: existing
`{id:"1", a:"x", b:"y"}` merged with incoming `{id:"1", a:"z"}` is
stored as `{id:"1", a:"z", b:"y"}`. -/
theorem claim_C2_witness :
    (assocGet (lookupTable
        (DB.saveMany sampleDB ([] ++ ("pairs", [("1", pairInc)]) :: [])).db.tables
        "pairs") "1"
      = some (mergeRecord (getColumns pairsModel) pairRow pairInc) ∧
     (∀ c ∈ getColumns pairsModel, (Record.get pairInc c.name).isSome →
       Record.get (mergeRecord (getColumns pairsModel) pairRow pairInc) c.name
         = Record.get pairInc c.name) ∧
     (∀ c ∈ getColumns pairsModel, Record.get pairInc c.name = none →
       (Record.get pairRow c.name).isSome →
       Record.get (mergeRecord (getColumns pairsModel) pairRow pairInc) c.name
         = Record.get pairRow c.name)) ∧
    mergeRecord (getColumns pairsModel) pairRow pairInc
      = [("id", Value.vstr "1"), ("a", Value.vstr "z"), ("b", Value.vstr "y")] :=
  ⟨claim_C2_merge sampleDB [] [] "pairs" pairsModel [("1", pairInc)] "1" pairInc pairRow
    (by decide) (by decide) (by decide) (by decide) (by decide) (by decide),
   by decide⟩

/-- C7: an incoming id with no existing stored counterpart is never up
to date: the loop queues (rather than skips) a freshly created record
whose `id` field equals the incoming id, whose other schema columns take
the incoming value when present and the schema default otherwise, and
that record is the one stored at that id after the batch. -/
theorem claim_C7_create (db : DBState) (pre post : TableMap) (T : String) (M : Model)
    (ents : EntityMap) (i : String) (inc : Record)
    (hw : wfDB db) (hb : wfBatch (pre ++ (T, ents) :: post))
    (hm : lookupModel db.modelMap T = some M)
    (hmem : (i, inc) ∈ ents)
    (hnone : assocGet (lookupTable db.tables T) i = none) :
    rowFor (getColumns M) (lookupTable db.tables T) i inc
      = some (Record.set (createRecord (getColumns M) inc) "id" (Value.vstr i)) ∧
    Record.set (createRecord (getColumns M) inc) "id" (Value.vstr i)
      ∈ ents.filterMap (fun p => rowFor (getColumns M) (lookupTable db.tables T) p.1 p.2) ∧
    assocGet (lookupTable (DB.saveMany db (pre ++ (T, ents) :: post)).db.tables T) i
      = some (Record.set (createRecord (getColumns M) inc) "id" (Value.vstr i)) ∧
    Record.get (Record.set (createRecord (getColumns M) inc) "id" (Value.vstr i)) "id"
      = some (Value.vstr i) ∧
    (∀ c ∈ getColumns M, c.name ≠ "id" →
      Record.get (Record.set (createRecord (getColumns M) inc) "id" (Value.vstr i)) c.name
        = some ((Record.get inc c.name).getD c.defaultValue)) := by
  have hsplit := batch_nodup_split hb.1
  have hents : wfEntities ents := hb.2 (T, ents)
    (List.mem_append_right _ (List.mem_cons_self _ _))
  have hpre : ∀ p ∈ pre, wfEntities p.2 :=
    fun p hp => hb.2 p (List.mem_append_left _ hp)
  have hcols : wfColumns (getColumns M) := wfColumns_lookup hw hm
  have hx : rowFor (getColumns M) (lookupTable db.tables T) i inc
      = some (Record.set (createRecord (getColumns M) inc) "id" (Value.vstr i)) := by
    unfold rowFor
    rw [hnone]
  refine ⟨hx, List.mem_filterMap.mpr ⟨(i, inc), hmem, hx⟩, ?_, assocGet_set_self _ _ _, ?_⟩
  · rw [saveMany_final_table pre db hw hpre ents post hsplit.1 hsplit.2 hm]
    exact tableAfter_get_some hcols (wfTable_lookup hw T) hents hmem hx
  · intro c hc hcne
    have hstep : Record.get
        (Record.set (createRecord (getColumns M) inc) "id" (Value.vstr i)) c.name
          = Record.get (createRecord (getColumns M) inc) c.name :=
      assocGet_set_ne _ _ _ _ hcne
    rw [hstep]
    unfold createRecord
    rw [get_map_columns, find?_col_self hcols.1 hc]
    rfl

/-- Witness for C7: syncing the absent `games` id `"1"` creates
`{id:"1", title:"t1"}` and stores it. -/
theorem claim_C7_witness :
    (rowFor (getColumns gamesModel) (lookupTable sampleDB.tables "games") "1"
        [("title", Value.vstr "t1")]
      = some (Record.set (createRecord (getColumns gamesModel) [("title", Value.vstr "t1")])
          "id" (Value.vstr "1")) ∧
     Record.set (createRecord (getColumns gamesModel) [("title", Value.vstr "t1")])
        "id" (Value.vstr "1")
      ∈ gamesEnts.filterMap (fun p =>
          rowFor (getColumns gamesModel) (lookupTable sampleDB.tables "games") p.1 p.2) ∧
     assocGet (lookupTable
        (DB.saveMany sampleDB ([] ++ ("games", gamesEnts) ::
          [("pairs", [("1", pairInc)])])).db.tables "games") "1"
      = some (Record.set (createRecord (getColumns gamesModel) [("title", Value.vstr "t1")])
          "id" (Value.vstr "1")) ∧
     Record.get (Record.set (createRecord (getColumns gamesModel)
        [("title", Value.vstr "t1")]) "id" (Value.vstr "1")) "id"
      = some (Value.vstr "1") ∧
     (∀ c ∈ getColumns gamesModel, c.name ≠ "id" →
       Record.get (Record.set (createRecord (getColumns gamesModel)
          [("title", Value.vstr "t1")]) "id" (Value.vstr "1")) c.name
        = some ((Record.get [("title", Value.vstr "t1")] c.name).getD c.defaultValue))) ∧
    Record.set (createRecord (getColumns gamesModel) [("title", Value.vstr "t1")])
        "id" (Value.vstr "1")
      = [("id", Value.vstr "1"), ("title", Value.vstr "t1")] :=
  ⟨claim_C7_create sampleDB [] [("pairs", [("1", pairInc)])] "games" gamesModel gamesEnts
    "1" [("title", Value.vstr "t1")] (by decide) (by decide) (by decide) (by decide)
    (by decide),
   by decide⟩

/-- C3: for a registered table of a batch, exactly one commit event is
dispatched for that table when the queue of changed/new records is
non-empty, carrying exactly the ids of the queued records (in order),
and no commit event is dispatched for that table when the queue is
empty. -/
theorem claim_C3_commit_events (db : DBState) (pre post : TableMap) (T : String)
    (M : Model) (ents : EntityMap)
    (hw : wfDB db) (hb : wfBatch (pre ++ (T, ents) :: post))
    (hm : lookupModel db.modelMap T = some M) :
    (DB.saveMany db (pre ++ (T, ents) :: post)).events.filter
        (fun e => decide (e.tableName = T)) =
      (if (ents.filter (fun p =>
            (rowFor (getColumns M) (lookupTable db.tables T) p.1 p.2).isSome)).isEmpty
       then []
       else [{ tableName := T,
               updated := (ents.filter (fun p =>
                 (rowFor (getColumns M) (lookupTable db.tables T) p.1 p.2).isSome)).map
                   Prod.fst }]) := by
  have hsplit := batch_nodup_split hb.1
  have hents : wfEntities ents := hb.2 (T, ents)
    (List.mem_append_right _ (List.mem_cons_self _ _))
  have hpre : ∀ p ∈ pre, wfEntities p.2 :=
    fun p hp => hb.2 p (List.mem_append_left _ hp)
  have hcols : wfColumns (getColumns M) := wfColumns_lookup hw hm
  rw [saveMany_events_at pre db hw hpre ents post hsplit.1 hsplit.2 hm]
  have hq := queue_ids hcols (wfTable_lookup hw T).2 ents hents.2
  have hlen : (ents.filterMap
      (fun p => rowFor (getColumns M) (lookupTable db.tables T) p.1 p.2)).length
        = (ents.filter (fun p =>
            (rowFor (getColumns M) (lookupTable db.tables T) p.1 p.2).isSome)).length := by
    have := congrArg List.length hq
    simpa using this
  by_cases hr : (ents.filterMap
      (fun p => rowFor (getColumns M) (lookupTable db.tables T) p.1 p.2)) = []
  · have hc : (ents.filter (fun p =>
        (rowFor (getColumns M) (lookupTable db.tables T) p.1 p.2).isSome)) = [] := by
      rw [← List.length_eq_zero]
      rw [← hlen, hr]
      rfl
    rw [if_pos (List.isEmpty_iff.mpr hr), if_pos (List.isEmpty_iff.mpr hc)]
  · have hc : ¬ (ents.filter (fun p =>
        (rowFor (getColumns M) (lookupTable db.tables T) p.1 p.2).isSome)) = [] := by
      intro hcc
      apply hr
      rw [← List.length_eq_zero, hlen, hcc]
      rfl
    rw [if_neg (fun hb2 => hr (List.isEmpty_iff.mp hb2)),
      if_neg (fun hb2 => hc (List.isEmpty_iff.mp hb2)), hq]

/-- Witness for C3: the sample batch has three new and two unchanged
`games` records and yields exactly one `games` commit event listing
exactly the three new ids. -/
theorem claim_C3_witness :
    ((DB.saveMany sampleDB ([] ++ ("games", gamesEnts) ::
        [("pairs", [("1", pairInc)])])).events.filter
          (fun e => decide (e.tableName = "games")) =
      (if (gamesEnts.filter (fun p =>
            (rowFor (getColumns gamesModel)
              (lookupTable sampleDB.tables "games") p.1 p.2).isSome)).isEmpty
       then []
       else [{ tableName := "games",
               updated := (gamesEnts.filter (fun p =>
                 (rowFor (getColumns gamesModel)
                   (lookupTable sampleDB.tables "games") p.1 p.2).isSome)).map
                     Prod.fst }])) ∧
    (gamesEnts.filter (fun p =>
        (rowFor (getColumns gamesModel)
          (lookupTable sampleDB.tables "games") p.1 p.2).isSome)).map Prod.fst
      = ["1", "2", "3"] :=
  ⟨claim_C3_commit_events sampleDB [] [("pairs", [("1", pairInc)])] "games" gamesModel
    gamesEnts (by decide) (by decide) (by decide),
   by decide⟩

/-- C5 counterexample: with a persist failure on table `ga`, the sibling
table `gb` of the same batch is never processed — its record is absent
from the final state even though it is written when no failure occurs —
and the caller receives only the propagated error, not an aggregate of
per-table outcomes.  This refutes the claim that a store write failure
on one table does not abort the processing of sibling tables. -/
theorem claim_C5_counterexample :
    (DB.saveManyWith (fun t => decide (t = "ga")) twoTableDB twoTableBatch).err
      = some "ga" ∧
    assocGet (lookupTable (DB.saveManyWith (fun t => decide (t = "ga"))
      twoTableDB twoTableBatch).db.tables "gb") "7" = none ∧
    (DB.saveManyWith (fun t => decide (t = "ga"))
      twoTableDB twoTableBatch).events = [] ∧
    (DB.saveMany twoTableDB twoTableBatch).err = none ∧
    (assocGet (lookupTable
      (DB.saveMany twoTableDB twoTableBatch).db.tables "gb") "7").isSome := by
  decide

/-- C5 as amended: a store write failure on one table fails that table's
portion and aborts the remainder of the batch: tables processed before
the failing table remain committed and keep their commit events, the
error propagates to the caller as the batch's single error, and the
tables after the failing one are not processed (the final state and the
event list are exactly those of the prefix before the failure). -/
theorem claim_C5_fail_aborts (fail : String → Bool) (db : DBState) (pre post : TableMap)
    (T : String) (M : Model) (ents : EntityMap)
    (hw : wfDB db) (hpre : ∀ p ∈ pre, wfEntities p.2)
    (hnf : ∀ p ∈ pre, fail p.1 = false)
    (hT : T ∉ pre.map Prod.fst) (hm : lookupModel db.modelMap T = some M)
    (hf : fail T = true)
    (hq : ¬ (ents.filterMap
      (fun p => rowFor (getColumns M) (lookupTable db.tables T) p.1 p.2)).isEmpty) :
    (DB.saveManyWith fail db (pre ++ (T, ents) :: post)).db
      = (DB.saveManyWith fail db pre).db ∧
    (DB.saveManyWith fail db (pre ++ (T, ents) :: post)).events
      = (DB.saveManyWith fail db pre).events ∧
    (DB.saveManyWith fail db (pre ++ (T, ents) :: post)).err = some T :=
  saveManyWith_fail_aborts fail pre db hw hpre hnf ents post hT hm hf hq

/-- Witness for the amended C5: a failure on `gb` leaves the earlier
`ga` write committed, keeps its commit event, and propagates the `gb`
error. -/
theorem claim_C5_witness :
    ((DB.saveManyWith (fun t => decide (t = "gb")) twoTableDB
        ([("ga", [("1", [("title", Value.vstr "A")])])] ++
          ("gb", [("7", [("title", Value.vstr "B")])]) :: [])).db
      = (DB.saveManyWith (fun t => decide (t = "gb")) twoTableDB
          [("ga", [("1", [("title", Value.vstr "A")])])]).db ∧
     (DB.saveManyWith (fun t => decide (t = "gb")) twoTableDB
        ([("ga", [("1", [("title", Value.vstr "A")])])] ++
          ("gb", [("7", [("title", Value.vstr "B")])]) :: [])).events
      = (DB.saveManyWith (fun t => decide (t = "gb")) twoTableDB
          [("ga", [("1", [("title", Value.vstr "A")])])]).events ∧
     (DB.saveManyWith (fun t => decide (t = "gb")) twoTableDB
        ([("ga", [("1", [("title", Value.vstr "A")])])] ++
          ("gb", [("7", [("title", Value.vstr "B")])]) :: [])).err = some "gb") ∧
    (assocGet (lookupTable (DB.saveManyWith (fun t => decide (t = "gb")) twoTableDB
        ([("ga", [("1", [("title", Value.vstr "A")])])] ++
          ("gb", [("7", [("title", Value.vstr "B")])]) :: [])).db.tables "ga")
        "1").isSome :=
  ⟨claim_C5_fail_aborts (fun t => decide (t = "gb")) twoTableDB
    [("ga", [("1", [("title", Value.vstr "A")])])] [] "gb" gamesModel
    [("7", [("title", Value.vstr "B")])] (by decide) (by decide) (by decide) (by decide)
    (by decide) (by decide) (by decide),
   by decide⟩

/-- C8: deletion removes exactly the listed ids from each registered
table of the spec, deleting ids absent from their table leaves the table
unchanged (a no-op, and the modelled remove never errors), and applying
the same deletion spec a second time leaves the store exactly as the
first application did. -/
theorem claim_C8_delete (db : DBState) (spec : DB.IDBDeleteSpec)
    (hnd : (spec.entities.map Prod.fst).Nodup) :
    (∀ p ∈ spec.entities, (lookupModel db.modelMap p.1).isSome →
      lookupTable (DB.deleteAllEntities db spec).1.tables p.1
        = DB.removeRows (lookupTable db.tables p.1) p.2) ∧
    (DB.deleteAllEntities (DB.deleteAllEntities db spec).1 spec).1
      = (DB.deleteAllEntities db spec).1 ∧
    (∀ p ∈ spec.entities, (∀ i ∈ p.2, assocGet (lookupTable db.tables p.1) i = none) →
      lookupTable (DB.deleteAllEntities db spec).1.tables p.1
        = lookupTable db.tables p.1) := by
  unfold DB.deleteAllEntities
  have h := deleteTables_spec spec.entities db hnd
  refine ⟨h.1, h.2.2, ?_⟩
  intro p hp habs
  cases hm : lookupModel db.modelMap p.1 with
  | none => exact h.2.1 p hp hm
  | some M =>
    rw [h.1 p hp (by rw [hm]; rfl)]
    exact removeRows_noop habs

/-- Witness for C8: deleting id `"5"` from `users` removes exactly that
row, deleting it again changes nothing, and an unregistered `ghosts`
entry is skipped. -/
theorem claim_C8_witness :
    ((∀ p ∈ ({ entities := [("users", ["5"]), ("ghosts", ["9"])] }
        : DB.IDBDeleteSpec).entities,
      (lookupModel sampleDB.modelMap p.1).isSome →
      lookupTable (DB.deleteAllEntities sampleDB
          { entities := [("users", ["5"]), ("ghosts", ["9"])] }).1.tables p.1
        = DB.removeRows (lookupTable sampleDB.tables p.1) p.2) ∧
     (DB.deleteAllEntities (DB.deleteAllEntities sampleDB
          { entities := [("users", ["5"]), ("ghosts", ["9"])] }).1
        { entities := [("users", ["5"]), ("ghosts", ["9"])] }).1
      = (DB.deleteAllEntities sampleDB
          { entities := [("users", ["5"]), ("ghosts", ["9"])] }).1 ∧
     (∀ p ∈ ({ entities := [("users", ["5"]), ("ghosts", ["9"])] }
        : DB.IDBDeleteSpec).entities,
      (∀ i ∈ p.2, assocGet (lookupTable sampleDB.tables p.1) i = none) →
      lookupTable (DB.deleteAllEntities sampleDB
          { entities := [("users", ["5"]), ("ghosts", ["9"])] }).1.tables p.1
        = lookupTable sampleDB.tables p.1)) ∧
    lookupTable (DB.deleteAllEntities sampleDB
        { entities := [("users", ["5"]), ("ghosts", ["9"])] }).1.tables "users" = [] :=
  ⟨claim_C8_delete sampleDB { entities := [("users", ["5"]), ("ghosts", ["9"])] }
    (by decide),
   by decide⟩
